import Mathlib

/-!
Shallow embedding of the dd-llm orchestration core
(`src/dd_llm/base.py`, `src/dd_llm/registry.py`, `src/dd_llm/provider.py`).

Conventions of the embedding:
* Python dataclass `LLMResponse` becomes a Lean structure with the same
  fields and defaults (floats become rationals).
* A backend adapter is modelled as a pure function from the retry-attempt
  index and the message list it is invoked with to an outcome: either a
  returned `LLMResponse` or a raised exception (type name and message).
* The registry dict maps a name to a constructor; calling the constructor
  either returns an adapter or raises, so an entry is `Except PyError Adapter`.
* `time.time()` is modelled by an abstract tick counter threaded through the
  orchestrator; each created `ErrorRecord` consumes one tick.
* `random.uniform(0.1, 0.3)` draws are an input stream `jit : Nat → ℚ`.
* `time.sleep` style waits are not performed; instead every sleep's duration
  is recorded in an observable trace, together with every adapter invocation
  (backend name, attempt index, the exact messages sent, and snapshots of the
  local/global error lists at that moment).
-/

namespace DdLlm

/-- One `{role, content}` message dict. -/
structure Message where
  role : String
  content : String
deriving Repr, DecidableEq

/-- One entry of the orchestrator's error history
(`provider.py` builds these dicts at lines 161-167, 192-198, 201-207). -/
structure ErrorRecord where
  provider : String
  attempt : Nat
  err : String
  errorType : String
  timestamp : Nat
deriving Repr, DecidableEq

/-- The `LLMResponse` dataclass of `base.py`, with its field defaults. -/
structure LLMResponse where
  content : String
  success : Bool
  provider : String
  model : String
  inputTokens : Nat := 0
  outputTokens : Nat := 0
  latencyMs : ℚ := 0
  costUsd : Option ℚ := none
  attempts : Nat := 1
  totalTime : ℚ := 0
  errorHistory : Option (List ErrorRecord) := none
deriving Repr, DecidableEq

/-- Outcome of one `adapter.call(...)`: a returned response (which may itself
carry `success = false`), or a raised exception with its type name and text. -/
inductive AdapterOutcome where
  | ok (resp : LLMResponse)
  | exn (errorType : String) (msg : String)
deriving Repr

/-- Whether the outcome is a returned response with `success = True`.
Both a raised exception and a returned failure count as failure
(`provider.py` lines 186, 191-207). -/
def AdapterOutcome.isSuccess : AdapterOutcome → Bool
  | .ok r => r.success
  | .exn _ _ => false

/-- A backend adapter: the response may depend on the attempt index within the
current retry loop (modelling stateful adapters such as the fail-then-succeed
test adapter) and on the messages it is sent. -/
abbrev Adapter : Type := Nat → List Message → AdapterOutcome

/-- A raised Python exception: its type name and message. -/
structure PyError where
  errorType : String
  msg : String
deriving Repr, DecidableEq

/-- A registered constructor: invoking it either returns an adapter or raises. -/
abbrev Ctor : Type := Except PyError Adapter

/-- The registry dict `_ADAPTER_REGISTRY`, modelled as an association list
with distinct keys maintained by `registerAdapter`. -/
abbrev Registry : Type := List (String × Ctor)

/-- The keys of the registry dict. -/
def keys (reg : Registry) : List String := reg.map Prod.fst

/-- `register_adapter` (`registry.py` lines 17-24): store or overwrite. -/
def registerAdapter (reg : Registry) (name : String) (c : Ctor) : Registry :=
  if name ∈ keys reg then
    reg.map (fun e => if e.1 == name then (e.1, c) else e)
  else
    reg ++ [(name, c)]

/-- Dict lookup `_ADAPTER_REGISTRY[name]` / `name in _ADAPTER_REGISTRY`. -/
def lookupCtor (reg : Registry) (name : String) : Option Ctor :=
  (reg.find? (fun e => e.1 == name)).map Prod.snd

/-- `list_adapters` (`registry.py` lines 35-37): `sorted(keys())`. -/
def listAdapters (reg : Registry) : List String :=
  (keys reg).insertionSort (· ≤ ·)

/-- The message of the `ValueError` raised by `get_adapter` on an unknown
name (`registry.py` lines 29-31). -/
def unknownAdapterMsg (reg : Registry) (name : String) : String :=
  "Unknown adapter " ++ "'" ++ name ++ "'" ++ ". Available: "
    ++ String.intercalate ", " (listAdapters reg)

/-- `get_adapter` (`registry.py` lines 27-32): raise `ValueError` when the
name is absent, else call the constructor (which itself may raise). -/
def getAdapter (reg : Registry) (name : String) : Except PyError Adapter :=
  match lookupCtor reg name with
  | none => .error ⟨"ValueError", unknownAdapterMsg reg name⟩
  | some c => c

/-- One backend's entry in `provider_stats` (`provider.py` lines 244-249). -/
structure Stats where
  successes : Nat
  failures : Nat
  avgTime : ℚ
deriving Repr, DecidableEq

/-- The lazily-created initial entry `{"successes": 0, "failures": 0, "avg_time": 0.0}`. -/
def Stats.init : Stats := ⟨0, 0, 0⟩

/-- The `provider_stats` dict. -/
abbrev StatsTable : Type := List (String × Stats)

/-- Dict lookup in the stats table. -/
def lookupStats (t : StatsTable) (name : String) : Option Stats :=
  (t.find? (fun e => e.1 == name)).map Prod.snd

/-- The mutation `_update_stats` applies to the tracked entry
(`provider.py` lines 251-256): increment exactly one counter, then recompute
the cumulative mean from the new total count. -/
def bumpStats (s : Stats) (success : Bool) (elapsed : ℚ) : Stats :=
  let s' :=
    if success then { s with successes := s.successes + 1 }
    else { s with failures := s.failures + 1 }
  let total := s'.successes + s'.failures
  { s' with avgTime := (s'.avgTime * ((total - 1 : Nat) : ℚ) + elapsed) / (total : ℚ) }

/-- `_update_stats` (`provider.py` lines 243-256): lazily create the entry,
then apply `bumpStats` to it. -/
def updateStats (t : StatsTable) (name : String) (success : Bool) (elapsed : ℚ) :
    StatsTable :=
  let t' := if (lookupStats t name).isSome then t else t ++ [(name, Stats.init)]
  t'.map (fun e => if e.1 == name then (e.1, bumpStats e.2 success elapsed) else e)

/-- The view returned by `get_provider_stats` for one backend: the stored
counters plus the derived `success_rate`. -/
structure StatsView where
  successes : Nat
  failures : Nat
  avgTime : ℚ
  successRate : ℚ
deriving Repr, DecidableEq

/-- Derive the read-time view of one stored `Stats` entry
(`provider.py` lines 133-140). -/
def Stats.view (s : Stats) : StatsView :=
  { successes := s.successes
    failures := s.failures
    avgTime := s.avgTime
    successRate := (s.successes : ℚ) / ((max (s.successes + s.failures) 1 : Nat) : ℚ) }

/-- The orchestrator configuration and its mutable stats table
(`UnifiedLLMProvider.__init__`, already-resolved values). -/
structure Provider where
  primaryProvider : String
  fallbackProviders : List String
  maxRetries : Nat
  initialWait : ℚ
  maxWait : ℚ
  providerStats : StatsTable := []
deriving Repr, DecidableEq

/-- `get_provider_stats` (`provider.py` lines 131-140): a fresh mapping with
the derived success rate; the stored table itself is not changed. -/
def getProviderStats (p : Provider) : List (String × StatsView) :=
  p.providerStats.map (fun e => (e.1, e.2.view))

/-- One line `f"{i}. {err['error_type']}: {err['error']}"` of the injected
error-context message (`provider.py` line 237). -/
def errorLine (i : Nat) (e : ErrorRecord) : String :=
  toString i ++ ". " ++ e.errorType ++ ": " ++ e.err

/-- `(local_errors + global_errors)[-3:]` (`provider.py` line 231). -/
def recentErrors (localErrors globalErrors : List ErrorRecord) : List ErrorRecord :=
  let combined := localErrors ++ globalErrors
  combined.drop (combined.length - 3)

/-- The synthetic self-correction message appended on retries
(`provider.py` lines 235-241), built from the selected recent errors. -/
def errorContextMessage (recent : List ErrorRecord) : Message :=
  let lines :=
    ["Previous attempts failed with the following errors:"]
      ++ (List.enumFrom 1 recent).map (fun p => errorLine p.1 p.2)
      ++ ["", "Please analyse these errors and provide a corrected response."]
  ⟨"user", String.intercalate "\n" lines⟩

/-- `_add_error_context` (`provider.py` lines 224-241): a **new** list is
built by concatenation; the original message list is never mutated. -/
def addErrorContext (originalMessages : List Message)
    (localErrors globalErrors : List ErrorRecord) : List Message :=
  let recent := recentErrors localErrors globalErrors
  if recent.isEmpty then originalMessages
  else originalMessages ++ [errorContextMessage recent]

/-- The error text used for a returned failure response:
`(result.error_history or [{}])[-1].get("error", "unknown")`
(`provider.py` line 195). -/
def adapterFailureText (r : LLMResponse) : String :=
  (((r.errorHistory.getD []).getLast?).map ErrorRecord.err).getD "unknown"

/-- The `ErrorRecord` appended for one failed attempt
(`provider.py` lines 192-198 and 201-207). -/
def attemptRecord (name : String) (attempt : Nat) (o : AdapterOutcome) (clock : Nat) :
    ErrorRecord :=
  match o with
  | .ok r => ⟨name, attempt + 1, adapterFailureText r, "AdapterFailure", clock⟩
  | .exn t m => ⟨name, attempt + 1, m, t, clock⟩

/-- One recorded adapter invocation: the backend, the loop's attempt index,
the exact messages sent, and snapshots of the local/global error lists at
that moment. -/
structure Invocation where
  provider : String
  attempt : Nat
  messages : List Message
  localsAtCall : List ErrorRecord
  globalsAtCall : List ErrorRecord
deriving Repr, DecidableEq

/-- Result of running (part of) one backend's retry loop: the response plus
the observable trace (invocations made, sleep durations), and the clock and
jitter-stream positions afterwards. -/
structure LoopOut where
  resp : LLMResponse
  invs : List Invocation
  sleeps : List ℚ
  clock : Nat
  jdx : Nat
deriving Repr, DecidableEq

/-- The retry loop `for attempt in range(self.max_retries)` of `_try_provider`
(`provider.py` lines 173-222), as a recursion on the remaining attempts
(`fuel`); `attempt` is the current loop index, `wait` the current `wait_time`,
`localErrors` the accumulated `local_errors`.  When fuel runs out the
post-loop exhaustion response of lines 214-222 is returned. -/
def tryLoop (maxRetries : Nat) (maxWait : ℚ) (jit : Nat → ℚ) (name : String)
    (adapter : Adapter) (messages : List Message) (model : Option String)
    (globalErrors : List ErrorRecord) :
    Nat → Nat → ℚ → List ErrorRecord → Nat → Nat → LoopOut
  | 0, _, _, localErrors, clock, jdx =>
      { resp :=
          { content := ""
            success := false
            provider := name
            model := model.getD "unknown"
            attempts := maxRetries
            totalTime := 0
            errorHistory := some localErrors }
        invs := []
        sleeps := []
        clock := clock
        jdx := jdx }
  | fuel + 1, attempt, wait, localErrors, clock, jdx =>
      let effMessages :=
        if attempt > 0 then addErrorContext messages localErrors globalErrors
        else messages
      let inv : Invocation := ⟨name, attempt, effMessages, localErrors, globalErrors⟩
      let outcome := adapter attempt effMessages
      match outcome with
      | .ok r =>
          if r.success then
            { resp :=
                { r with
                  attempts := attempt + 1
                  errorHistory := if localErrors.isEmpty then none else some localErrors }
              invs := [inv]
              sleeps := []
              clock := clock
              jdx := jdx }
          else
            let localErrors' := localErrors ++ [attemptRecord name attempt outcome clock]
            let step :=
              if attempt < maxRetries - 1 then
                ([wait + jit jdx * wait], min (wait * 2) maxWait, jdx + 1)
              else (([] : List ℚ), wait, jdx)
            let rest :=
              tryLoop maxRetries maxWait jit name adapter messages model globalErrors
                fuel (attempt + 1) step.2.1 localErrors' (clock + 1) step.2.2
            { rest with
              invs := inv :: rest.invs
              sleeps := step.1 ++ rest.sleeps }
      | .exn _ _ =>
          let localErrors' := localErrors ++ [attemptRecord name attempt outcome clock]
          let step :=
            if attempt < maxRetries - 1 then
              ([wait + jit jdx * wait], min (wait * 2) maxWait, jdx + 1)
            else (([] : List ℚ), wait, jdx)
          let rest :=
            tryLoop maxRetries maxWait jit name adapter messages model globalErrors
              fuel (attempt + 1) step.2.1 localErrors' (clock + 1) step.2.2
          { rest with
            invs := inv :: rest.invs
            sleeps := step.1 ++ rest.sleeps }

/-- `_try_provider` (`provider.py` lines 144-222): resolve the adapter — a
resolution failure yields the attempt-0 error response of lines 156-168 —
then run the retry loop starting at attempt 0 with `wait_time = initial_wait`
and empty `local_errors`. -/
def tryProvider (maxRetries : Nat) (initialWait maxWait : ℚ) (jit : Nat → ℚ)
    (reg : Registry) (name : String) (messages : List Message)
    (model : Option String) (globalErrors : List ErrorRecord)
    (clock jdx : Nat) : LoopOut :=
  match getAdapter reg name with
  | .error e =>
      { resp :=
          { content := ""
            success := false
            provider := name
            model := model.getD "unknown"
            errorHistory := some [⟨name, 0, e.msg, e.errorType, clock⟩] }
        invs := []
        sleeps := []
        clock := clock + 1
        jdx := jdx }
  | .ok adapter =>
      tryLoop maxRetries maxWait jit name adapter messages model globalErrors
        maxRetries 0 initialWait [] clock jdx

/-- The candidate order of `call` (`provider.py` lines 96-100):
the effective primary followed by the fallbacks with the primary removed. -/
def providersToTry (p : Provider) (override : Option String) : List String :=
  let primary := override.getD p.primaryProvider
  primary :: p.fallbackProviders.filter (fun q => q ≠ primary)

/-- Accumulator of the candidate loop in `call`: the global `error_history`,
the stats table, the clock/jitter positions, and the observable trace
(invocations, sleeps, list of backends actually handed to `_try_provider`). -/
structure CallAcc where
  errorHistory : List ErrorRecord
  stats : StatsTable
  clock : Nat
  jdx : Nat
  invs : List Invocation
  sleeps : List ℚ
  tried : List String
deriving Repr, DecidableEq

/-- The trace bookkeeping shared by both outcomes of one `_try_provider`
invocation inside the candidate loop: merge the backend's trace into the
accumulator and record the backend as tried. -/
def tryStep (acc : CallAcc) (name : String) (out : LoopOut) : CallAcc :=
  { acc with
    clock := out.clock
    jdx := out.jdx
    invs := acc.invs ++ out.invs
    sleeps := acc.sleeps ++ out.sleeps
    tried := acc.tried ++ [name] }

/-- The accumulator after a backend exhausted its retries
(`provider.py` lines 118-119): merge its local errors into the global
history and record a failure in the stats. -/
def failStep (acc : CallAcc) (name : String) (out : LoopOut) : CallAcc :=
  { tryStep acc name out with
    errorHistory := acc.errorHistory ++ (out.resp.errorHistory.getD [])
    stats := updateStats acc.stats name false ((tryStep acc name out).clock : ℚ) }

/-- The candidate loop of `call` (`provider.py` lines 104-129): skip names not
in `registered`, run `_try_provider`, return on success (updating stats with
the elapsed time), else merge local errors into the global history, record a
failure in the stats, and continue; when no candidate remains, return the
`all_failed` response of lines 121-129. -/
def callLoop (p : Provider) (reg : Registry) (jit : Nat → ℚ)
    (messages : List Message) (model : Option String) :
    List String → CallAcc → LLMResponse × CallAcc
  | [], acc =>
      ({ content := ""
         success := false
         provider := "all_failed"
         model := model.getD "unknown"
         attempts := acc.errorHistory.length
         totalTime := (acc.clock : ℚ)
         errorHistory := some acc.errorHistory }, acc)
  | name :: rest, acc =>
      if name ∈ listAdapters reg then
        let out :=
          tryProvider p.maxRetries p.initialWait p.maxWait jit reg name messages
            model acc.errorHistory acc.clock acc.jdx
        if out.resp.success then
          ({ out.resp with totalTime := ((tryStep acc name out).clock : ℚ) },
           { tryStep acc name out with
             stats := updateStats acc.stats name true
               (((tryStep acc name out).clock : Nat) : ℚ) })
        else
          callLoop p reg jit messages model rest (failStep acc name out)
      else
        callLoop p reg jit messages model rest acc

/-- Equality of `Except` values is decidable when both components have
decidable equality (used only to make counterexample runs computable). -/
instance exceptDecEq {ε α : Type} [DecidableEq ε] [DecidableEq α] :
    DecidableEq (Except ε α)
  | .ok x, .ok y =>
      if h : x = y then isTrue (congrArg Except.ok h)
      else isFalse (fun hh => h (Except.ok.inj hh))
  | .ok _, .error _ => isFalse (fun hh => Except.noConfusion hh)
  | .error _, .ok _ => isFalse (fun hh => Except.noConfusion hh)
  | .error e, .error f =>
      if h : e = f then isTrue (congrArg Except.error h)
      else isFalse (fun hh => h (Except.error.inj hh))

/-- Result of one orchestrated `call`: the returned response or the raised
`ValueError` message, the provider state afterwards (stats updated), and the
observable trace. -/
structure CallOut where
  result : Except String LLMResponse
  provider : Provider
  invs : List Invocation
  sleeps : List ℚ
  tried : List String
deriving Repr, DecidableEq

/-- The body of `call` after input normalisation. -/
def callRun (p : Provider) (reg : Registry) (jit : Nat → ℚ)
    (messages : List Message) (model : Option String)
    (override : Option String) : CallOut :=
  let acc0 : CallAcc :=
    { errorHistory := []
      stats := p.providerStats
      clock := 0
      jdx := 0
      invs := []
      sleeps := []
      tried := [] }
  let out := callLoop p reg jit messages model (providersToTry p override) acc0
  { result := .ok out.1
    provider := { p with providerStats := out.2.stats }
    invs := out.2.invs
    sleeps := out.2.sleeps
    tried := out.2.tried }

/-- An adapter on which every attempt fails (raises or returns a
`success = False` response). -/
def AlwaysFails (a : Adapter) : Prop :=
  ∀ k m, (a k m).isSuccess = false

/-- The sequence of `wait_time` values used by successive backoff sleeps:
the initial value, then repeatedly doubled and capped at `maxWait`
(`provider.py` lines 170 and 212). -/
def waitSeq (maxWait w : ℚ) : Nat → ℚ
  | 0 => w
  | n + 1 => min (waitSeq maxWait w n * 2) maxWait

/-- The message list a call works with after input normalisation
(`provider.py` lines 90-91): an explicit `messages` wins, else the prompt is
wrapped into a single user message. -/
def normMessages : Option String → Option (List Message) → List Message
  | _, some ms => ms
  | some pr, none => [⟨"user", pr⟩]
  | none, none => []

section Fixtures

/-- Fixture: an adapter that always raises `RuntimeError("boom")`. -/
def failA : Adapter := fun _ _ => .exn "RuntimeError" "boom"

/-- Fixture: an adapter that always succeeds, reporting the given backend
name in its response. -/
def okA (name : String) : Adapter :=
  fun _ _ => .ok { content := "ok", success := true, provider := name, model := "m" }

/-- Fixture: an adapter that raises on the first `k` attempt indices and
succeeds afterwards, reporting the given backend name. -/
def flakyA (name : String) (k : Nat) : Adapter :=
  fun i _ =>
    if i < k then .exn "RuntimeError" "boom"
    else .ok { content := "ok", success := true, provider := name, model := "m" }

/-- Fixture: a constant jitter stream with every `random.uniform(0.1, 0.3)`
draw equal to 0.1. -/
def jConst : Nat → ℚ := fun _ => 1 / 10

/-- Fixture: a one-message conversation. -/
def msgs0 : List Message := [⟨"user", "hi"⟩]

/-- Fixture: registry with a failing backend "p" and a succeeding backend "f". -/
def regPF : Registry := [("p", Except.ok failA), ("f", Except.ok (okA "f"))]

/-- Fixture: orchestrator with primary "p", fallback "f", one attempt each. -/
def pPF : Provider := ⟨"p", ["f"], 1, 1, 30, []⟩

/-- Fixture: registry with only the succeeding backend "f". -/
def regF : Registry := [("f", Except.ok (okA "f"))]

/-- Fixture: orchestrator with primary "f" and no fallbacks. -/
def pF : Provider := ⟨"f", [], 1, 1, 30, []⟩

/-- Fixture: registry with the fail-once-then-succeed backend "q". -/
def regFlaky : Registry := [("q", Except.ok (flakyA "q" 1))]

/-- Fixture: orchestrator with primary "q", two attempts, no fallbacks. -/
def pFlaky : Provider := ⟨"q", [], 2, 1, 30, []⟩

/-- Fixture: registry with only the always-failing backend "q". -/
def regQfail : Registry := [("q", Except.ok failA)]

/-- Fixture: orchestrator with primary "q", two attempts, no fallbacks. -/
def pQfail : Provider := ⟨"q", [], 2, 1, 30, []⟩

/-- Fixture: orchestrator whose initial backoff (4) exceeds its cap (3). -/
def pCap : Provider := ⟨"q", [], 2, 4, 3, []⟩

/-- Fixture: a registry registered in the order "a", "b". -/
def regW1 : Registry := [("a", Except.ok (okA "a")), ("b", Except.ok failA)]

/-- Fixture: the same two backends registered in the order "b", "a". -/
def regW2 : Registry := [("b", Except.ok failA), ("a", Except.ok (okA "a"))]

/-- Fixture: the retry (attempt-1) invocation produced by `pFlaky`. -/
def invC2 : Invocation :=
  ⟨"q", 1,
    msgs0 ++ [errorContextMessage
      (recentErrors [⟨"q", 1, "boom", "RuntimeError", 0⟩] [])],
    [⟨"q", 1, "boom", "RuntimeError", 0⟩], []⟩

/-- Fixture: the first (attempt-0) invocation produced by `pFlaky`. -/
def invC10 : Invocation := ⟨"q", 0, msgs0, [], []⟩

/-- Fixture: registry with the failing primary "p" and a fallback "f" that
fails its first attempt and then succeeds. -/
def regPFlaky : Registry :=
  [("p", Except.ok failA), ("f", Except.ok (flakyA "f" 1))]

/-- Fixture: orchestrator with primary "p", fallback "f", two attempts
each. -/
def pPF2 : Provider := ⟨"p", ["f"], 2, 1, 30, []⟩

end Fixtures

/-- `UnifiedLLMProvider.call` (`provider.py` lines 63-129): validate that at
least one of prompt/messages is present (lines 87-88), wrap a bare prompt
into a single user message (lines 90-91), then run the candidate loop over
`providersToTry`.  The call starts with clock 0 (`start_time`), an empty
global error history, and the provider's current stats table. -/
def call (p : Provider) (reg : Registry) (jit : Nat → ℚ) (prompt : Option String)
    (model : Option String) (messages : Option (List Message))
    (override : Option String) : CallOut :=
  match messages, prompt with
  | none, none =>
      { result := .error "Either prompt or messages must be provided"
        provider := p
        invs := []
        sleeps := []
        tried := [] }
  | none, some pr => callRun p reg jit [⟨"user", pr⟩] model override
  | some ms, _ => callRun p reg jit ms model override

/-! ## Helper lemmas -/

theorem waitSeq_shift (mW w : ℚ) (n : Nat) :
    waitSeq mW w (n + 1) = waitSeq mW (min (w * 2) mW) n := by
  induction n with
  | zero => rfl
  | succ n ih =>
      show min (waitSeq mW w (n + 1) * 2) mW = _
      rw [ih]
      rfl

theorem waitSeq_closed (mW w : ℚ) (h0 : 0 ≤ w) (hw : w ≤ mW) (n : Nat) :
    waitSeq mW w n = min (w * 2 ^ n) mW := by
  induction n with
  | zero => simp [waitSeq, min_eq_left hw]
  | succ n ih =>
      have hmw : (0 : ℚ) ≤ mW := le_trans h0 hw
      rw [waitSeq, ih, pow_succ, ← mul_assoc]
      rcases le_total (w * 2 ^ n) mW with h | h
      · rw [min_eq_left h]
      · have h1 : (0 : ℚ) ≤ w * 2 ^ n := le_trans hmw h
        rw [min_eq_right h, min_eq_right (by linarith), min_eq_right (by linarith)]

theorem tryLoop_wait_jdx_irrel (mR : Nat) (mW : ℚ) (jit : Nat → ℚ)
    (name : String) (a : Adapter) (messages : List Message) (model : Option String)
    (globalErrors : List ErrorRecord) (fuel attempt : Nat)
    (locals : List ErrorRecord) (clock : Nat) (w w' : ℚ) (j j' : Nat) :
    (tryLoop mR mW jit name a messages model globalErrors
        fuel attempt w locals clock j).resp =
      (tryLoop mR mW jit name a messages model globalErrors
          fuel attempt w' locals clock j').resp ∧
    (tryLoop mR mW jit name a messages model globalErrors
        fuel attempt w locals clock j).invs =
      (tryLoop mR mW jit name a messages model globalErrors
          fuel attempt w' locals clock j').invs := by
  induction fuel generalizing attempt locals clock w w' j j' with
  | zero => exact ⟨rfl, rfl⟩
  | succ f ih =>
      rcases ho : a attempt
          (if attempt > 0 then addErrorContext messages locals globalErrors else messages)
        with r | ⟨t, m⟩
      · by_cases hr : r.success
        · simp [tryLoop, ho, hr]
        · simp only [tryLoop, ho, hr, Bool.false_eq_true, if_false]
          exact ⟨(ih _ _ _ _ _ _ _).1, by
            simp only [List.cons.injEq, true_and]
            exact (ih _ _ _ _ _ _ _).2⟩
      · simp only [tryLoop, ho]
        exact ⟨(ih _ _ _ _ _ _ _).1, by
          simp only [List.cons.injEq, true_and]
          exact (ih _ _ _ _ _ _ _).2⟩

theorem tryLoop_resp_of_alwaysFails (mR : Nat) (mW : ℚ) (jit : Nat → ℚ)
    (name : String) (a : Adapter) (messages : List Message) (model : Option String)
    (globalErrors : List ErrorRecord) (hf : AlwaysFails a)
    (fuel attempt : Nat) (wait : ℚ) (locals : List ErrorRecord) (clock jdx : Nat) :
    ∃ fresh : List ErrorRecord,
      (tryLoop mR mW jit name a messages model globalErrors
          fuel attempt wait locals clock jdx).resp =
        { content := ""
          success := false
          provider := name
          model := model.getD "unknown"
          attempts := mR
          totalTime := 0
          errorHistory := some (locals ++ fresh) } ∧
      fresh.length = fuel ∧ ∀ e ∈ fresh, e.provider = name := by
  induction fuel generalizing attempt wait locals clock jdx with
  | zero => exact ⟨[], by simp [tryLoop], rfl, by simp⟩
  | succ f ih =>
      have hfa := hf attempt
        (if attempt > 0 then addErrorContext messages locals globalErrors else messages)
      rcases ho : a attempt
          (if attempt > 0 then addErrorContext messages locals globalErrors else messages)
        with r | ⟨t, m⟩
      · rw [ho, AdapterOutcome.isSuccess] at hfa
        obtain ⟨fresh, h1, h2, h3⟩ :=
          ih (attempt + 1) wait
            (locals ++ [attemptRecord name attempt (.ok r) clock])
            (clock + 1) jdx
        refine ⟨attemptRecord name attempt (.ok r) clock :: fresh, ?_, by simp [h2], ?_⟩
        · simp only [tryLoop, ho, hfa]
          simp only [Bool.false_eq_true, if_false]
          refine Eq.trans
            ((tryLoop_wait_jdx_irrel mR mW jit name a messages model globalErrors
              f (attempt + 1) _ (clock + 1) _ wait _ jdx).1) ?_
          simpa using h1
        · intro e he
          rcases List.mem_cons.mp he with he | he
          · subst he; rfl
          · exact h3 e he
      · obtain ⟨fresh, h1, h2, h3⟩ :=
          ih (attempt + 1) wait
            (locals ++ [attemptRecord name attempt (.exn t m) clock])
            (clock + 1) jdx
        refine ⟨attemptRecord name attempt (.exn t m) clock :: fresh, ?_, by simp [h2], ?_⟩
        · simp only [tryLoop, ho]
          refine Eq.trans
            ((tryLoop_wait_jdx_irrel mR mW jit name a messages model globalErrors
              f (attempt + 1) _ (clock + 1) _ wait _ jdx).1) ?_
          simpa using h1
        · intro e he
          rcases List.mem_cons.mp he with he | he
          · subst he; rfl
          · exact h3 e he

theorem tryLoop_sleeps_of_alwaysFails (mR : Nat) (mW : ℚ) (jit : Nat → ℚ)
    (name : String) (a : Adapter) (messages : List Message) (model : Option String)
    (globalErrors : List ErrorRecord) (hf : AlwaysFails a)
    (fuel attempt : Nat) (wait : ℚ) (locals : List ErrorRecord) (clock jdx : Nat)
    (hinv : attempt + fuel = mR) :
    (tryLoop mR mW jit name a messages model globalErrors
        fuel attempt wait locals clock jdx).sleeps =
      (List.range (fuel - 1)).map
        (fun i => waitSeq mW wait i + jit (jdx + i) * waitSeq mW wait i) := by
  induction fuel generalizing attempt wait locals clock jdx with
  | zero => simp [tryLoop]
  | succ f ih =>
      have hfa := hf attempt
        (if attempt > 0 then addErrorContext messages locals globalErrors else messages)
      by_cases hc : attempt < mR - 1
      · cases f with
        | zero => omega
        | succ f' =>
            have hstep :
                ∀ rec : ErrorRecord,
                  (tryLoop mR mW jit name a messages model globalErrors
                      (f' + 1) (attempt + 1) (min (wait * 2) mW)
                      (locals ++ [rec]) (clock + 1) (jdx + 1)).sleeps =
                    (List.range f').map
                      (fun i => waitSeq mW (min (wait * 2) mW) i
                        + jit (jdx + 1 + i) * waitSeq mW (min (wait * 2) mW) i) := by
              intro rec
              simpa using ih (attempt + 1) (min (wait * 2) mW)
                (locals ++ [rec]) (clock + 1) (jdx + 1) (by omega)
            have htail :
                (List.range (f' + 1)).map
                    (fun i => waitSeq mW wait i + jit (jdx + i) * waitSeq mW wait i) =
                  (wait + jit jdx * wait) ::
                    (List.range f').map
                      (fun i => waitSeq mW (min (wait * 2) mW) i
                        + jit (jdx + 1 + i) * waitSeq mW (min (wait * 2) mW) i) := by
              rw [List.range_succ_eq_map, List.map_cons, List.map_map]
              refine congrArg₂ _ (by simp [waitSeq]) ?_
              refine List.map_congr_left ?_
              intro i _
              have hj : jdx + (i + 1) = jdx + 1 + i := by omega
              simp only [Function.comp_apply, hj, waitSeq_shift]
            rcases ho : a attempt
                (if attempt > 0 then addErrorContext messages locals globalErrors
                 else messages)
              with r | ⟨t, m⟩
            · rw [ho, AdapterOutcome.isSuccess] at hfa
              rw [tryLoop.eq_2]
              simp only [ho, hfa, Bool.false_eq_true, if_false, hc, if_true,
                Nat.add_sub_cancel, List.singleton_append]
              rw [hstep, htail]
            · rw [tryLoop.eq_2]
              simp only [ho, hc, if_true,
                Nat.add_sub_cancel, List.singleton_append]
              rw [hstep, htail]
      · have hf0 : f = 0 := by omega
        subst hf0
        rcases ho : a attempt
            (if attempt > 0 then addErrorContext messages locals globalErrors
             else messages)
          with r | ⟨t, m⟩
        · rw [ho, AdapterOutcome.isSuccess] at hfa
          simp [tryLoop, ho, hfa, hc]
        · simp [tryLoop, ho, hc]

theorem tryLoop_fail_then_succeed (mR : Nat) (mW : ℚ) (jit : Nat → ℚ)
    (name : String) (a : Adapter) (messages : List Message) (model : Option String)
    (globalErrors : List ErrorRecord) (k : Nat)
    (hbelow : ∀ i m, i < k → (a i m).isSuccess = false)
    (hat : ∀ m, ∃ r, a k m = .ok r ∧ r.success = true)
    (hk : k < mR)
    (fuel attempt : Nat) (wait : ℚ) (locals : List ErrorRecord) (clock jdx : Nat)
    (hinv : attempt + fuel = mR) (hak : attempt ≤ k)
    (hlen : locals.length = attempt) :
    (tryLoop mR mW jit name a messages model globalErrors
        fuel attempt wait locals clock jdx).resp.success = true ∧
    (tryLoop mR mW jit name a messages model globalErrors
        fuel attempt wait locals clock jdx).resp.attempts = k + 1 ∧
    ((tryLoop mR mW jit name a messages model globalErrors
        fuel attempt wait locals clock jdx).resp.errorHistory.getD []).length = k ∧
    (tryLoop mR mW jit name a messages model globalErrors
        fuel attempt wait locals clock jdx).sleeps.length = k - attempt := by
  induction fuel generalizing attempt wait locals clock jdx with
  | zero => omega
  | succ f ih =>
      by_cases hek : attempt = k
      · subst hek
        obtain ⟨r, hr, hrs⟩ := hat
          (if attempt > 0 then addErrorContext messages locals globalErrors
           else messages)
        by_cases hL : locals.isEmpty
        · have h0 : locals = [] := List.isEmpty_iff.mp hL
          simp only [tryLoop, hr, hrs, if_true, hL]
          subst h0
          simp at hlen
          simp [← hlen]
        · simp only [tryLoop, hr, hrs, if_true, hL]
          simp [Bool.false_eq_true, hlen]
      · have haklt : attempt < k := by omega
        have hc : attempt < mR - 1 := by omega
        have hfa := hbelow attempt
          (if attempt > 0 then addErrorContext messages locals globalErrors
           else messages) haklt
        rcases ho : a attempt
            (if attempt > 0 then addErrorContext messages locals globalErrors
             else messages)
          with r | ⟨t, m⟩
        · rw [ho, AdapterOutcome.isSuccess] at hfa
          obtain ⟨ih1, ih2, ih3, ih4⟩ :=
            ih (attempt + 1) (min (wait * 2) mW)
              (locals ++ [attemptRecord name attempt (.ok r) clock])
              (clock + 1) (jdx + 1) (by omega) (by omega) (by simp [hlen])
          simp only [tryLoop, ho, hfa, Bool.false_eq_true, if_false, hc, if_true]
          refine ⟨by simpa using ih1, by simpa using ih2, by simpa using ih3, ?_⟩
          simp only [List.singleton_append, List.length_cons]
          simp only [ih4]
          omega
        · obtain ⟨ih1, ih2, ih3, ih4⟩ :=
            ih (attempt + 1) (min (wait * 2) mW)
              (locals ++ [attemptRecord name attempt (.exn t m) clock])
              (clock + 1) (jdx + 1) (by omega) (by omega) (by simp [hlen])
          simp only [tryLoop, ho, hc, if_true]
          refine ⟨by simpa using ih1, by simpa using ih2, by simpa using ih3, ?_⟩
          simp only [List.singleton_append, List.length_cons]
          simp only [ih4]
          omega

theorem tryLoop_invs_spec (mR : Nat) (mW : ℚ) (jit : Nat → ℚ)
    (name : String) (a : Adapter) (messages : List Message) (model : Option String)
    (globalErrors : List ErrorRecord)
    (fuel attempt : Nat) (wait : ℚ) (locals : List ErrorRecord) (clock jdx : Nat)
    (hlen : locals.length = attempt) :
    ∀ inv ∈ (tryLoop mR mW jit name a messages model globalErrors
        fuel attempt wait locals clock jdx).invs,
      inv.provider = name ∧ inv.globalsAtCall = globalErrors ∧
      inv.localsAtCall.length = inv.attempt ∧
      (inv.attempt = 0 → inv.messages = messages) ∧
      (0 < inv.attempt →
        inv.messages = addErrorContext messages inv.localsAtCall inv.globalsAtCall) := by
  induction fuel generalizing attempt wait locals clock jdx with
  | zero => simp [tryLoop]
  | succ f ih =>
      have hmsg0 : attempt = 0 →
          (if attempt > 0 then addErrorContext messages locals globalErrors
           else messages) = messages := by
        intro h0
        subst h0
        simp
      have hmsgp : 0 < attempt →
          (if attempt > 0 then addErrorContext messages locals globalErrors
           else messages) = addErrorContext messages locals globalErrors := by
        intro hpos
        simp [hpos]
      rcases ho : a attempt
          (if attempt > 0 then addErrorContext messages locals globalErrors
           else messages)
        with r | ⟨t, m⟩
      · by_cases hr : r.success
        · simp only [tryLoop, ho, hr, if_true]
          intro inv hinv
          simp only [List.mem_singleton] at hinv
          subst hinv
          exact ⟨rfl, rfl, hlen, hmsg0, hmsgp⟩
        · simp only [tryLoop, ho, hr, Bool.false_eq_true, if_false]
          intro inv hinv
          rcases List.mem_cons.mp (by simpa using hinv) with hi | hi
          · subst hi; exact ⟨rfl, rfl, hlen, hmsg0, hmsgp⟩
          · exact ih (attempt + 1) _
              (locals ++ [attemptRecord name attempt (.ok r) clock])
              (clock + 1) _ (by simp [hlen]) inv hi
      · simp only [tryLoop, ho]
        intro inv hinv
        rcases List.mem_cons.mp (by simpa using hinv) with hi | hi
        · subst hi; exact ⟨rfl, rfl, hlen, hmsg0, hmsgp⟩
        · exact ih (attempt + 1) _
            (locals ++ [attemptRecord name attempt (.exn t m) clock])
            (clock + 1) _ (by simp [hlen]) inv hi

theorem tryLoop_errors_mem (mR : Nat) (mW : ℚ) (jit : Nat → ℚ)
    (name : String) (a : Adapter) (messages : List Message) (model : Option String)
    (globalErrors : List ErrorRecord)
    (fuel attempt : Nat) (wait : ℚ) (locals : List ErrorRecord) (clock jdx : Nat) :
    ∀ e ∈ ((tryLoop mR mW jit name a messages model globalErrors
        fuel attempt wait locals clock jdx).resp.errorHistory.getD []),
      e ∈ locals ∨ e.provider = name := by
  induction fuel generalizing attempt wait locals clock jdx with
  | zero =>
      intro e he
      simp [tryLoop] at he
      exact Or.inl he
  | succ f ih =>
      rcases ho : a attempt
          (if attempt > 0 then addErrorContext messages locals globalErrors
           else messages)
        with r | ⟨t, m⟩
      · by_cases hr : r.success
        · simp only [tryLoop, ho, hr, if_true]
          intro e he
          by_cases hL : locals.isEmpty <;> simp [hL] at he
          exact Or.inl he
        · simp only [tryLoop, ho, hr, Bool.false_eq_true, if_false]
          intro e he
          rcases ih (attempt + 1) _
              (locals ++ [attemptRecord name attempt (.ok r) clock])
              (clock + 1) _ e (by simpa using he) with hi | hi
          · rcases List.mem_append.mp hi with hi | hi
            · exact Or.inl hi
            · simp only [List.mem_singleton] at hi
              subst hi
              exact Or.inr rfl
          · exact Or.inr hi
      · simp only [tryLoop, ho]
        intro e he
        rcases ih (attempt + 1) _
            (locals ++ [attemptRecord name attempt (.exn t m) clock])
            (clock + 1) _ e (by simpa using he) with hi | hi
        · rcases List.mem_append.mp hi with hi | hi
          · exact Or.inl hi
          · simp only [List.mem_singleton] at hi
            subst hi
            exact Or.inr rfl
        · exact Or.inr hi


theorem find?_map_preserve (t : StatsTable) (name n : String) (b : Bool) (el : ℚ) :
    List.find? (fun e => e.1 == n)
        (t.map (fun e => if e.1 == name then (e.1, bumpStats e.2 b el) else e)) =
      (List.find? (fun e => e.1 == n) t).map
        (fun e => if e.1 == name then (e.1, bumpStats e.2 b el) else e) := by
  rw [List.find?_map]
  have hcomp : ((fun e : String × Stats => e.1 == n) ∘
      fun e : String × Stats =>
        if e.1 == name then (e.1, bumpStats e.2 b el) else e)
      = fun e : String × Stats => e.1 == n := by
    funext e
    by_cases h : (e.1 == name) = true <;> simp [Function.comp, h]
  rw [hcomp]

theorem bumpStats_eq (s : Stats) (b : Bool) (el : ℚ) :
    bumpStats s b el =
      { successes := s.successes + (if b then 1 else 0)
        failures := s.failures + (if b then 0 else 1)
        avgTime := (s.avgTime * ((s.successes + s.failures : Nat) : ℚ) + el)
          / (((s.successes + s.failures : Nat) : ℚ) + 1) } := by
  cases b with
  | false =>
      have hn : s.successes + (s.failures + 1) - 1 = s.successes + s.failures := by
        omega
      simp [bumpStats, hn]
      ring
  | true =>
      have hn : s.successes + 1 + s.failures - 1 = s.successes + s.failures := by
        omega
      simp [bumpStats, hn]
      ring

theorem lookupStats_updateStats_self (t : StatsTable) (name : String) (b : Bool)
    (el : ℚ) :
    lookupStats (updateStats t name b el) name =
      some (bumpStats ((lookupStats t name).getD Stats.init) b el) := by
  have key : updateStats t name b el =
      (if (lookupStats t name).isSome then t
       else t ++ [(name, Stats.init)]).map
        (fun e => if e.1 == name then (e.1, bumpStats e.2 b el) else e) := rfl
  cases hs : lookupStats t name with
  | some s =>
      rw [key, hs]
      simp only [Option.isSome_some, if_true, Option.getD_some]
      unfold lookupStats at hs ⊢
      rw [find?_map_preserve]
      cases hf : List.find? (fun e : String × Stats => e.1 == name) t with
      | none => rw [hf] at hs; simp at hs
      | some e0 =>
          rw [hf] at hs
          simp at hs
          have he : e0.1 = name := by
            simpa using List.find?_some hf
          simp [he, hs]
  | none =>
      rw [key, hs]
      simp only [Option.isSome_none, Bool.false_eq_true, if_false, Option.getD_none]
      have hft : List.find? (fun e : String × Stats => e.1 == name) t = none := by
        unfold lookupStats at hs
        cases hf : List.find? (fun e : String × Stats => e.1 == name) t with
        | none => rfl
        | some e0 => rw [hf] at hs; simp at hs
      unfold lookupStats
      rw [find?_map_preserve, List.find?_append, hft]
      simp [List.find?]

theorem lookupStats_updateStats_other (t : StatsTable) (name : String) (b : Bool)
    (el : ℚ) (n : String) (hn : n ≠ name) :
    lookupStats (updateStats t name b el) n = lookupStats t n := by
  have hfix : ∀ e0 : String × Stats, (e0.1 == n) = true → (e0.1 == name) = false := by
    intro e0 h
    have he : e0.1 = n := by simpa using h
    simp [he, hn]
  have key : updateStats t name b el =
      (if (lookupStats t name).isSome then t
       else t ++ [(name, Stats.init)]).map
        (fun e => if e.1 == name then (e.1, bumpStats e.2 b el) else e) := rfl
  have hmap : ∀ T : StatsTable,
      lookupStats
        (T.map (fun e => if e.1 == name then (e.1, bumpStats e.2 b el) else e)) n =
        lookupStats T n := by
    intro T
    unfold lookupStats
    rw [find?_map_preserve]
    cases hff : List.find? (fun e : String × Stats => e.1 == n) T with
    | none => simp [hff]
    | some e0 =>
        have hb : e0.1 ≠ name := by
          have hb0 := hfix e0 (by simpa using List.find?_some hff)
          simpa using hb0
        simp [hff, hb]
  rw [key, hmap]
  by_cases hs : (lookupStats t name).isSome
  · simp [hs]
  · rw [if_neg hs]
    have hsingle :
        List.find? (fun e : String × Stats => e.1 == n) [(name, Stats.init)]
          = none := by
      have hb : (name == n) = false := by simp [Ne.symm hn]
      simp [List.find?, hb]
    unfold lookupStats
    rw [List.find?_append, hsingle]
    simp

theorem listAdapters_sorted (reg : Registry) :
    (listAdapters reg).Sorted (· ≤ ·) :=
  List.sorted_insertionSort _ _

theorem mem_listAdapters (reg : Registry) (n : String) :
    n ∈ listAdapters reg ↔ n ∈ keys reg :=
  (List.perm_insertionSort _ _).mem_iff

theorem listAdapters_eq_of_perm (reg1 reg2 : Registry)
    (h : (keys reg1).Perm (keys reg2)) :
    listAdapters reg1 = listAdapters reg2 :=
  List.eq_of_perm_of_sorted
    (((List.perm_insertionSort _ _).trans h).trans
      (List.perm_insertionSort _ _).symm)
    (listAdapters_sorted reg1) (listAdapters_sorted reg2)

theorem mem_keys_of_lookupCtor (reg : Registry) (name : String) (c : Ctor)
    (h : lookupCtor reg name = some c) : name ∈ keys reg := by
  unfold lookupCtor at h
  cases hf : reg.find? (fun e => e.1 == name) with
  | none => rw [hf] at h; simp at h
  | some e0 =>
      have hm := List.mem_of_find?_eq_some hf
      have he : e0.1 = name := by simpa using List.find?_some hf
      exact he ▸ List.mem_map_of_mem Prod.fst hm

theorem lookupCtor_of_getAdapter_ok (reg : Registry) (name : String) (a : Adapter)
    (h : getAdapter reg name = .ok a) : lookupCtor reg name = some (.ok a) := by
  unfold getAdapter at h
  cases hl : lookupCtor reg name with
  | none => rw [hl] at h; simp at h
  | some c =>
      rw [hl] at h
      simp at h
      rw [h]

theorem mem_listAdapters_of_getAdapter_ok (reg : Registry) (name : String)
    (a : Adapter) (h : getAdapter reg name = .ok a) : name ∈ listAdapters reg :=
  (mem_listAdapters reg name).mpr
    (mem_keys_of_lookupCtor reg name _ (lookupCtor_of_getAdapter_ok reg name a h))

theorem tryProvider_resp_of_alwaysFails (mR : Nat) (iw mW : ℚ) (jit : Nat → ℚ)
    (reg : Registry) (name : String) (messages : List Message)
    (model : Option String) (globalErrors : List ErrorRecord) (clock jdx : Nat)
    (a : Adapter) (ha : getAdapter reg name = .ok a) (hf : AlwaysFails a) :
    ∃ fresh : List ErrorRecord,
      (tryProvider mR iw mW jit reg name messages model globalErrors
          clock jdx).resp =
        { content := ""
          success := false
          provider := name
          model := model.getD "unknown"
          attempts := mR
          totalTime := 0
          errorHistory := some fresh } ∧
      fresh.length = mR ∧ ∀ e ∈ fresh, e.provider = name := by
  unfold tryProvider
  rw [ha]
  simpa using
    tryLoop_resp_of_alwaysFails mR mW jit name a messages model globalErrors hf
      mR 0 iw [] clock jdx

theorem tryProvider_errors_mem (mR : Nat) (iw mW : ℚ) (jit : Nat → ℚ)
    (reg : Registry) (name : String) (messages : List Message)
    (model : Option String) (globalErrors : List ErrorRecord) (clock jdx : Nat) :
    ∀ e ∈ ((tryProvider mR iw mW jit reg name messages model globalErrors
        clock jdx).resp.errorHistory.getD []),
      e.provider = name := by
  unfold tryProvider
  cases hg : getAdapter reg name with
  | error e0 =>
      intro e he
      simp at he
      rw [he]
  | ok a =>
      intro e he
      rcases tryLoop_errors_mem mR mW jit name a messages model globalErrors
          mR 0 iw [] clock jdx e he with hi | hi
      · simp at hi
      · exact hi

theorem tryProvider_invs_spec (mR : Nat) (iw mW : ℚ) (jit : Nat → ℚ)
    (reg : Registry) (name : String) (messages : List Message)
    (model : Option String) (globalErrors : List ErrorRecord) (clock jdx : Nat) :
    ∀ inv ∈ (tryProvider mR iw mW jit reg name messages model globalErrors
        clock jdx).invs,
      inv.localsAtCall.length = inv.attempt ∧
      (inv.attempt = 0 → inv.messages = messages) ∧
      (0 < inv.attempt →
        inv.messages =
          addErrorContext messages inv.localsAtCall inv.globalsAtCall) := by
  unfold tryProvider
  cases hg : getAdapter reg name with
  | error e0 => intro inv hinv; simp at hinv
  | ok a =>
      intro inv hinv
      obtain ⟨_, _, h3, h4, h5⟩ :=
        tryLoop_invs_spec mR mW jit name a messages model globalErrors
          mR 0 iw [] clock jdx rfl inv hinv
      exact ⟨h3, h4, h5⟩


theorem tryProvider_success_false_of_alwaysFails (mR : Nat) (iw mW : ℚ)
    (jit : Nat → ℚ) (reg : Registry) (name : String) (messages : List Message)
    (model : Option String) (g : List ErrorRecord) (clock jdx : Nat)
    (hfail : ∀ a : Adapter, lookupCtor reg name = some (.ok a) → AlwaysFails a) :
    (tryProvider mR iw mW jit reg name messages model g clock jdx).resp.success
      = false := by
  unfold tryProvider
  cases hg : getAdapter reg name with
  | error e => rfl
  | ok a =>
      obtain ⟨fresh, h1, _, _⟩ :=
        tryLoop_resp_of_alwaysFails mR mW jit name a messages model g
          (hfail a (lookupCtor_of_getAdapter_ok reg name a hg)) mR 0 iw [] clock jdx
      simp [h1]

theorem callLoop_invs_pred (p : Provider) (reg : Registry) (jit : Nat → ℚ)
    (messages : List Message) (model : Option String) (P : Invocation → Prop)
    (hP : ∀ name g clock jdx,
      ∀ inv ∈ (tryProvider p.maxRetries p.initialWait p.maxWait jit reg name
        messages model g clock jdx).invs, P inv) :
    ∀ cands acc, (∀ inv ∈ acc.invs, P inv) →
      ∀ inv ∈ (callLoop p reg jit messages model cands acc).2.invs, P inv := by
  intro cands
  induction cands with
  | nil => intro acc hacc inv hinv; exact hacc inv hinv
  | cons name rest ih =>
      intro acc hacc inv hinv
      simp only [callLoop] at hinv
      by_cases hreg : name ∈ listAdapters reg
      · rw [if_pos hreg] at hinv
        by_cases hsucc : (tryProvider p.maxRetries p.initialWait p.maxWait jit reg
            name messages model acc.errorHistory acc.clock acc.jdx).resp.success
        · rw [if_pos hsucc] at hinv
          simp only [tryStep] at hinv
          rcases List.mem_append.mp hinv with hi | hi
          · exact hacc inv hi
          · exact hP name acc.errorHistory acc.clock acc.jdx inv hi
        · rw [if_neg hsucc] at hinv
          refine ih (failStep acc name _) ?_ inv hinv
          intro inv2 hinv2
          simp only [failStep, tryStep] at hinv2
          rcases List.mem_append.mp hinv2 with hi | hi
          · exact hacc inv2 hi
          · exact hP name acc.errorHistory acc.clock acc.jdx inv2 hi
      · rw [if_neg hreg] at hinv
        exact ih acc hacc inv hinv

theorem callLoop_resp_of_alwaysFails (p : Provider) (reg : Registry)
    (jit : Nat → ℚ) (messages : List Message) (model : Option String)
    (hfail : ∀ n (a : Adapter), lookupCtor reg n = some (.ok a) → AlwaysFails a) :
    ∀ cands acc,
      (callLoop p reg jit messages model cands acc).1.success = false ∧
      (callLoop p reg jit messages model cands acc).1.provider = "all_failed" ∧
      (callLoop p reg jit messages model cands acc).1.errorHistory =
        some (callLoop p reg jit messages model cands acc).2.errorHistory ∧
      (callLoop p reg jit messages model cands acc).1.attempts =
        (callLoop p reg jit messages model cands acc).2.errorHistory.length := by
  intro cands
  induction cands with
  | nil => intro acc; exact ⟨rfl, rfl, rfl, rfl⟩
  | cons name rest ih =>
      intro acc
      have hsucc : (tryProvider p.maxRetries p.initialWait p.maxWait jit reg
          name messages model acc.errorHistory acc.clock acc.jdx).resp.success
            = false :=
        tryProvider_success_false_of_alwaysFails _ _ _ _ _ _ _ _ _ _ _
          (fun a h => hfail name a h)
      simp only [callLoop]
      by_cases hreg : name ∈ listAdapters reg
      · rw [if_pos hreg, if_neg (by simp [hsucc])]
        exact ih _
      · rw [if_neg hreg]
        exact ih _

theorem callLoop_tried_spec (p : Provider) (reg : Registry) (jit : Nat → ℚ)
    (messages : List Message) (model : Option String) :
    ∀ cands acc,
      (∀ e ∈ acc.errorHistory, e.provider ∈ acc.tried) →
      (((callLoop p reg jit messages model cands acc).1.success = false →
        (callLoop p reg jit messages model cands acc).2.tried =
          acc.tried ++ cands.filter (fun n => decide (n ∈ listAdapters reg))) ∧
      ((callLoop p reg jit messages model cands acc).2.tried).IsPrefix
        (acc.tried ++ cands.filter (fun n => decide (n ∈ listAdapters reg))) ∧
      (∀ e ∈ (callLoop p reg jit messages model cands acc).1.errorHistory.getD [],
        e.provider ∈ (callLoop p reg jit messages model cands acc).2.tried) ∧
      (∀ n, n ∉ listAdapters reg →
        lookupStats (callLoop p reg jit messages model cands acc).2.stats n =
          lookupStats acc.stats n)) := by
  intro cands
  induction cands with
  | nil =>
      intro acc hacc
      refine ⟨fun _ => by simp [callLoop], by simp [callLoop], ?_, fun n _ => rfl⟩
      intro e he
      simp only [callLoop, Option.getD_some] at he ⊢
      exact hacc e he
  | cons name rest ih =>
      intro acc hacc
      simp only [callLoop]
      by_cases hreg : name ∈ listAdapters reg
      · have hnm : ∀ n, n ∉ listAdapters reg → n ≠ name := by
          intro n hn he
          exact hn (he ▸ hreg)
        have herr : ∀ e ∈ (tryProvider p.maxRetries p.initialWait p.maxWait jit reg
            name messages model acc.errorHistory acc.clock
            acc.jdx).resp.errorHistory.getD [], e.provider = name :=
          tryProvider_errors_mem _ _ _ _ _ _ _ _ _ _ _
        have hfilter : (name :: rest).filter
            (fun n => decide (n ∈ listAdapters reg)) =
            name :: rest.filter (fun n => decide (n ∈ listAdapters reg)) := by
          simp [List.filter, hreg]
        rw [if_pos hreg]
        by_cases hsucc : (tryProvider p.maxRetries p.initialWait p.maxWait jit reg
            name messages model acc.errorHistory acc.clock acc.jdx).resp.success
        · rw [if_pos hsucc]
          refine ⟨fun hfalse => ?_, ?_, ?_, ?_⟩
          · simp only at hfalse
            rw [hfalse] at hsucc
            simp at hsucc
          · simp only [tryStep, hfilter]
            refine ⟨rest.filter (fun n => decide (n ∈ listAdapters reg)), ?_⟩
            simp
          · intro e he
            simp only at he ⊢
            have hename := herr e he
            simp [tryStep, hename]
          · intro n hn
            simp only
            exact lookupStats_updateStats_other _ _ _ _ _ (hnm n hn)
        · rw [if_neg hsucc]
          have hacc2 : ∀ e ∈ (failStep acc name
              (tryProvider p.maxRetries p.initialWait p.maxWait jit reg name
                messages model acc.errorHistory acc.clock acc.jdx)).errorHistory,
              e.provider ∈ (failStep acc name
              (tryProvider p.maxRetries p.initialWait p.maxWait jit reg name
                messages model acc.errorHistory acc.clock acc.jdx)).tried := by
            intro e he
            simp only [failStep, tryStep] at he ⊢
            rcases List.mem_append.mp he with hi | hi
            · exact List.mem_append.mpr (Or.inl (hacc e hi))
            · exact List.mem_append.mpr (Or.inr (by simp [herr e hi]))
          obtain ⟨ih1, ih2, ih3, ih4⟩ := ih (failStep acc name _) hacc2
          have htried : (failStep acc name
              (tryProvider p.maxRetries p.initialWait p.maxWait jit reg name
                messages model acc.errorHistory acc.clock acc.jdx)).tried =
              acc.tried ++ [name] := by
            simp [failStep, tryStep]
          refine ⟨fun hfalse => ?_, ?_, ih3, ?_⟩
          · rw [ih1 hfalse, htried, hfilter]
            simp
          · refine List.IsPrefix.trans ih2 ?_
            rw [htried, hfilter]
            simp
          · intro n hn
            rw [ih4 n hn]
            have hstats : (failStep acc name
                (tryProvider p.maxRetries p.initialWait p.maxWait jit reg name
                  messages model acc.errorHistory acc.clock acc.jdx)).stats =
                updateStats acc.stats name false
                  (((tryStep acc name
                    (tryProvider p.maxRetries p.initialWait p.maxWait jit reg name
                      messages model acc.errorHistory acc.clock
                      acc.jdx)).clock : Nat) : ℚ) := rfl
            rw [hstats]
            exact lookupStats_updateStats_other _ _ _ _ _ (hnm n hn)
      · rw [if_neg hreg]
        obtain ⟨ih1, ih2, ih3, ih4⟩ := ih acc hacc
        have hfilter : (name :: rest).filter
            (fun n => decide (n ∈ listAdapters reg)) =
            rest.filter (fun n => decide (n ∈ listAdapters reg)) := by
          simp [List.filter, hreg]
        exact ⟨fun hfalse => by rw [ih1 hfalse, hfilter], by rw [hfilter]; exact ih2,
          ih3, ih4⟩


theorem recentErrors_length_le (loc glob : List ErrorRecord) :
    (recentErrors loc glob).length ≤ 3 := by
  simp only [recentErrors, List.length_drop]
  omega

theorem recentErrors_suffix (loc glob : List ErrorRecord) :
    (recentErrors loc glob).IsSuffix (loc ++ glob) :=
  List.drop_suffix _ _

theorem recentErrors_ne_nil (loc glob : List ErrorRecord) (h : loc ≠ []) :
    (recentErrors loc glob).isEmpty = false := by
  have hlen : 0 < loc.length := List.length_pos.mpr h
  have : 0 < (recentErrors loc glob).length := by
    simp only [recentErrors, List.length_drop, List.length_append]
    omega
  cases he : recentErrors loc glob with
  | nil => rw [he] at this; simp at this
  | cons a l => rfl

theorem addErrorContext_eq_append (ms : List Message) (loc glob : List ErrorRecord)
    (h : loc ≠ []) :
    addErrorContext ms loc glob =
      ms ++ [errorContextMessage (recentErrors loc glob)] := by
  simp only [addErrorContext, recentErrors_ne_nil loc glob h, Bool.false_eq_true,
    if_false]

theorem addErrorContext_concat (ms : List Message) (loc glob : List ErrorRecord) :
    ∃ tail, addErrorContext ms loc glob = ms ++ tail ∧ tail.length ≤ 1 := by
  cases he : (recentErrors loc glob).isEmpty with
  | true => exact ⟨[], by simp [addErrorContext, he], by simp⟩
  | false =>
      exact ⟨[errorContextMessage (recentErrors loc glob)],
        by simp [addErrorContext, he], by simp⟩

theorem call_invs_spec (p : Provider) (reg : Registry) (jit : Nat → ℚ)
    (prompt : Option String) (model : Option String)
    (messages : Option (List Message)) (override : Option String) :
    ∀ inv ∈ (call p reg jit prompt model messages override).invs,
      inv.localsAtCall.length = inv.attempt ∧
      (inv.attempt = 0 → inv.messages = normMessages prompt messages) ∧
      (0 < inv.attempt → inv.messages =
        addErrorContext (normMessages prompt messages) inv.localsAtCall
          inv.globalsAtCall) := by
  have main : ∀ ms : List Message, ∀ inv ∈ (callRun p reg jit ms model override).invs,
      inv.localsAtCall.length = inv.attempt ∧
      (inv.attempt = 0 → inv.messages = ms) ∧
      (0 < inv.attempt → inv.messages =
        addErrorContext ms inv.localsAtCall inv.globalsAtCall) := by
    intro ms inv hinv
    refine callLoop_invs_pred p reg jit ms model
      (fun inv => inv.localsAtCall.length = inv.attempt ∧
        (inv.attempt = 0 → inv.messages = ms) ∧
        (0 < inv.attempt → inv.messages =
          addErrorContext ms inv.localsAtCall inv.globalsAtCall))
      ?_ (providersToTry p override) _ (by simp) inv hinv
    intro name g clock jdx inv2 hinv2
    exact tryProvider_invs_spec _ _ _ _ _ _ _ _ _ _ _ inv2 hinv2
  cases messages with
  | some ms =>
      cases prompt with
      | none => exact main ms
      | some pr => exact main ms
  | none =>
      cases prompt with
      | none => intro inv hinv; simp [call] at hinv
      | some pr => exact main [⟨"user", pr⟩]



theorem tryLoop_fail_then_succeed_provider (mR : Nat) (mW : ℚ) (jit : Nat → ℚ)
    (name : String) (a : Adapter) (messages : List Message)
    (model : Option String) (globalErrors : List ErrorRecord) (k : Nat)
    (hbelow : ∀ i m, i < k → (a i m).isSuccess = false)
    (hat : ∀ m, ∃ r, a k m = .ok r ∧ r.success = true ∧ r.provider = name)
    (hk : k < mR)
    (fuel attempt : Nat) (wait : ℚ) (locals : List ErrorRecord)
    (clock jdx : Nat)
    (hinv : attempt + fuel = mR) (hak : attempt ≤ k)
    (hlen : locals.length = attempt) :
    (tryLoop mR mW jit name a messages model globalErrors
        fuel attempt wait locals clock jdx).resp.provider = name ∧
    (k = 0 → (tryLoop mR mW jit name a messages model globalErrors
        fuel attempt wait locals clock jdx).resp.errorHistory = none) := by
  induction fuel generalizing attempt wait locals clock jdx with
  | zero => omega
  | succ f ih =>
      by_cases hek : attempt = k
      · subst hek
        obtain ⟨r, hr, hrs, hrp⟩ := hat
          (if attempt > 0 then addErrorContext messages locals globalErrors
           else messages)
        by_cases hL : locals.isEmpty
        · simp only [tryLoop, hr, hrs, if_true, hL]
          exact ⟨by simpa using hrp, fun _ => by simp⟩
        · simp only [tryLoop, hr, hrs, if_true, hL]
          refine ⟨by simpa using hrp, fun h0 => ?_⟩
          exfalso
          have hnil : locals = [] := by
            apply List.length_eq_zero.mp
            omega
          rw [hnil] at hL
          simp at hL
      · have haklt : attempt < k := by omega
        have hc : attempt < mR - 1 := by omega
        have hfa2 := hbelow attempt
          (if attempt > 0 then addErrorContext messages locals globalErrors
           else messages) haklt
        rcases ho : a attempt
            (if attempt > 0 then addErrorContext messages locals globalErrors
             else messages)
          with r | ⟨t, m⟩
        · rw [ho, AdapterOutcome.isSuccess] at hfa2
          obtain ⟨ih1, ih2⟩ :=
            ih (attempt + 1) (min (wait * 2) mW)
              (locals ++ [attemptRecord name attempt (.ok r) clock])
              (clock + 1) (jdx + 1) (by omega) (by omega) (by simp [hlen])
          simp only [tryLoop, ho, hfa2, Bool.false_eq_true, if_false, hc,
            if_true]
          exact ⟨by simpa using ih1, by simpa using ih2⟩
        · obtain ⟨ih1, ih2⟩ :=
            ih (attempt + 1) (min (wait * 2) mW)
              (locals ++ [attemptRecord name attempt (.exn t m) clock])
              (clock + 1) (jdx + 1) (by omega) (by omega) (by simp [hlen])
          simp only [tryLoop, ho, hc, if_true]
          exact ⟨by simpa using ih1, by simpa using ih2⟩

theorem callLoop_skip_failing_prefix (p : Provider) (reg : Registry)
    (jit : Nat → ℚ) (ms : List Message) (model : Option String) :
    ∀ (pre rest : List String) (acc : CallAcc),
      (∀ n ∈ pre, ∀ a : Adapter, lookupCtor reg n = some (.ok a) →
        AlwaysFails a) →
      ∃ acc', callLoop p reg jit ms model (pre ++ rest) acc =
          callLoop p reg jit ms model rest acc' ∧
        acc'.tried = acc.tried ++
          pre.filter (fun n => decide (n ∈ listAdapters reg)) := by
  intro pre
  induction pre with
  | nil => intro rest acc _; exact ⟨acc, by simp, by simp⟩
  | cons name pre2 ih =>
      intro rest acc hpre
      have hname : ∀ a : Adapter, lookupCtor reg name = some (.ok a) →
          AlwaysFails a :=
        fun a ha => hpre name (by simp) a ha
      have hpre2 : ∀ n ∈ pre2, ∀ a : Adapter,
          lookupCtor reg n = some (.ok a) → AlwaysFails a :=
        fun n hn a ha => hpre n (by simp [hn]) a ha
      have hsucc := tryProvider_success_false_of_alwaysFails p.maxRetries
        p.initialWait p.maxWait jit reg name ms model acc.errorHistory
        acc.clock acc.jdx hname
      by_cases hreg : name ∈ listAdapters reg
      · obtain ⟨acc', h1, h2⟩ := ih rest
          (failStep acc name (tryProvider p.maxRetries p.initialWait p.maxWait
            jit reg name ms model acc.errorHistory acc.clock acc.jdx)) hpre2
        refine ⟨acc', ?_, ?_⟩
        · rw [List.cons_append]
          simp only [callLoop]
          rw [if_pos hreg, if_neg (by simp [hsucc])]
          exact h1
        · rw [h2]
          simp [failStep, tryStep, List.filter, hreg]
      · obtain ⟨acc', h1, h2⟩ := ih rest acc hpre2
        refine ⟨acc', ?_, by rw [h2]; simp [List.filter, hreg]⟩
        rw [List.cons_append]
        simp only [callLoop]
        rw [if_neg hreg]
        exact h1

/-! ## Claim theorems -/

/-- Claim C3 (amended): a call must supply at least one of prompt and
messages; supplying neither raises the configuration `ValueError` before any
backend is resolved or invoked, leaving the provider (and so its statistics
table) unchanged and producing no invocation, sleep, or tried backend.  When
both are supplied, the code does not fail: `messages` takes precedence and
`prompt` is ignored, so the call behaves exactly as if only `messages` had
been given. -/
theorem claim_C3_validation (p : Provider) (reg : Registry) (jit : Nat → ℚ)
    (model : Option String) (override : Option String) :
    (call p reg jit none model none override =
      { result := .error "Either prompt or messages must be provided"
        provider := p
        invs := []
        sleeps := []
        tried := [] }) ∧
    (∀ pr ms, call p reg jit (some pr) model (some ms) override =
      call p reg jit none model (some ms) override) :=
  ⟨rfl, fun _ _ => rfl⟩

/-- Claim C3 counterexample: supplying **both** a prompt and messages does
not fail with a configuration error — the call runs normally (here against a
succeeding backend) and returns a response. -/
theorem claim_C3_counterexample :
    (call pF regF jConst (some "hi") none (some msgs0) none).result.isOk
      = true := by
  decide

/-- Claim C8: after each terminal outcome exactly one of the two counters is
incremented and the running average satisfies `newAvg = (oldAvg*(n-1) +
thisElapsed)/n` with `n` the new total (stated with `n-1 = old total`); other
backends' entries are untouched; `get_provider_stats` reports, at read time,
`successRate = successes / max(successes+failures, 1)` derived from the
stored counters, which themselves store no rate. -/
theorem claim_C8_stats (t : StatsTable) (name : String) (b : Bool) (el : ℚ)
    (p : Provider) :
    (lookupStats (updateStats t name b el) name =
      some
        { successes :=
            ((lookupStats t name).getD Stats.init).successes + (if b then 1 else 0)
          failures :=
            ((lookupStats t name).getD Stats.init).failures + (if b then 0 else 1)
          avgTime :=
            (((lookupStats t name).getD Stats.init).avgTime
                * ((((lookupStats t name).getD Stats.init).successes
                    + ((lookupStats t name).getD Stats.init).failures : Nat) : ℚ)
              + el)
            / ((((lookupStats t name).getD Stats.init).successes
                + ((lookupStats t name).getD Stats.init).failures : Nat) + 1 : ℚ) }) ∧
    (∀ n, n ≠ name → lookupStats (updateStats t name b el) n = lookupStats t n) ∧
    (getProviderStats p = p.providerStats.map (fun e => (e.1,
      { successes := e.2.successes
        failures := e.2.failures
        avgTime := e.2.avgTime
        successRate := (e.2.successes : ℚ)
          / ((max (e.2.successes + e.2.failures) 1 : Nat) : ℚ) }))) := by
  refine ⟨?_, fun n hn => lookupStats_updateStats_other t name b el n hn, rfl⟩
  rw [lookupStats_updateStats_self, bumpStats_eq]

/-- Claim C8 witness at a concrete table: updating "a" leaves "b" unchanged
and produces the predicted entry. -/
theorem claim_C8_witness :
    ("b" : String) ≠ "a" ∧
    lookupStats (updateStats [] "a" true 2) "b" =
      lookupStats ([] : StatsTable) "b" ∧
    lookupStats (updateStats [] "a" true 2) "a" =
      some { successes := 0 + (if true then 1 else 0)
             failures := 0 + (if true then 0 else 1)
             avgTime := ((0 : ℚ) * ((0 + 0 : Nat) : ℚ) + 2)
               / (((0 + 0 : Nat) : ℚ) + 1) } :=
  ⟨by decide, (claim_C8_stats [] "a" true 2 pF).2.1 "b" (by decide),
    (claim_C8_stats [] "a" true 2 pF).1⟩

/-- Claim C9: resolving an unregistered name fails with the `ValueError`
whose message enumerates all currently registered names, joined in sorted
order; `list_adapters` is sorted lexicographically, contains exactly the
registered names, and is determined by the key set alone — registries whose
keys are permutations of one another list identically. -/
theorem claim_C9_registry (reg reg1 reg2 : Registry) (name : String)
    (h : lookupCtor reg name = none)
    (hperm : (keys reg1).Perm (keys reg2)) :
    getAdapter reg name = .error ⟨"ValueError",
      "Unknown adapter " ++ "'" ++ name ++ "'" ++ ". Available: "
        ++ String.intercalate ", " (listAdapters reg)⟩ ∧
    (listAdapters reg).Sorted (· ≤ ·) ∧
    (∀ n, n ∈ listAdapters reg ↔ n ∈ keys reg) ∧
    listAdapters reg1 = listAdapters reg2 := by
  refine ⟨?_, listAdapters_sorted reg, fun n => mem_listAdapters reg n,
    listAdapters_eq_of_perm reg1 reg2 hperm⟩
  unfold getAdapter
  rw [h]
  rfl

/-- Claim C9 witness: the fixture registries registered in opposite orders
list identically, and looking up the unregistered "z" yields the enumerating
error. -/
theorem claim_C9_witness :
    lookupCtor regW1 "z" = none ∧ (keys regW1).Perm (keys regW2) ∧
    (getAdapter regW1 "z" = .error ⟨"ValueError",
      "Unknown adapter " ++ "'" ++ "z" ++ "'" ++ ". Available: "
        ++ String.intercalate ", " (listAdapters regW1)⟩ ∧
    (listAdapters regW1).Sorted (· ≤ ·) ∧
    (∀ n, n ∈ listAdapters regW1 ↔ n ∈ keys regW1) ∧
    listAdapters regW1 = listAdapters regW2) :=
  ⟨rfl, by decide, claim_C9_registry regW1 regW1 regW2 "z" rfl (by decide)⟩


/-- Claim C2: for every call and every backend, the request sent on retry
attempt index 0 is exactly the (normalised) original message list; on every
attempt index > 0 it is the original list plus one appended message
summarising at most 3 error records — the most recent entries (the trailing
slice) of the list formed by the current backend's local errors followed by
the carried-over global errors, so local errors come first and global errors
after them (the summarised slice is a suffix of that local-then-global
list). -/
theorem claim_C2_error_context (p : Provider) (reg : Registry) (jit : Nat → ℚ)
    (prompt : Option String) (model : Option String)
    (messages : Option (List Message)) (override : Option String) :
    ∀ inv ∈ (call p reg jit prompt model messages override).invs,
      (inv.attempt = 0 → inv.messages = normMessages prompt messages) ∧
      (0 < inv.attempt →
        inv.messages = normMessages prompt messages ++
          [errorContextMessage
            (recentErrors inv.localsAtCall inv.globalsAtCall)] ∧
        (recentErrors inv.localsAtCall inv.globalsAtCall).length ≤ 3 ∧
        (recentErrors inv.localsAtCall inv.globalsAtCall).IsSuffix
          (inv.localsAtCall ++ inv.globalsAtCall)) := by
  intro inv hinv
  obtain ⟨hlen, h0, hpos⟩ :=
    call_invs_spec p reg jit prompt model messages override inv hinv
  refine ⟨h0, fun hp => ?_⟩
  have hne : inv.localsAtCall ≠ [] := by
    intro hnil
    rw [hnil] at hlen
    simp at hlen
    omega
  refine ⟨?_, recentErrors_length_le _ _, recentErrors_suffix _ _⟩
  rw [hpos hp, addErrorContext_eq_append _ _ _ hne]

/-- Claim C2 witness: the concrete retry invocation of the flaky fixture is
in the trace and satisfies the error-context property. -/
theorem claim_C2_witness :
    invC2 ∈ (call pFlaky regFlaky jConst none none (some msgs0) none).invs ∧
    ((invC2.attempt = 0 → invC2.messages = normMessages none (some msgs0)) ∧
      (0 < invC2.attempt →
        invC2.messages = normMessages none (some msgs0) ++
          [errorContextMessage
            (recentErrors invC2.localsAtCall invC2.globalsAtCall)] ∧
        (recentErrors invC2.localsAtCall invC2.globalsAtCall).length ≤ 3 ∧
        (recentErrors invC2.localsAtCall invC2.globalsAtCall).IsSuffix
          (invC2.localsAtCall ++ invC2.globalsAtCall))) :=
  ⟨by decide, claim_C2_error_context pFlaky regFlaky jConst none none
    (some msgs0) none invC2 (by decide)⟩

/-- Claim C10: the orchestrator never mutates the caller's message list.  In
this pure embedding the caller's list is a value the orchestrator only reads;
the theorem states the corresponding observable facts: every request actually
sent to a backend is the original (normalised) list, or the original list
extended by one appended context message built by concatenation
(`_add_error_context` returns `original + [...]`, a new list), so the
original always persists unchanged as a prefix. -/
theorem claim_C10_no_mutation (p : Provider) (reg : Registry) (jit : Nat → ℚ)
    (prompt : Option String) (model : Option String)
    (messages : Option (List Message)) (override : Option String) :
    (∀ inv ∈ (call p reg jit prompt model messages override).invs,
      ∃ tail, inv.messages = normMessages prompt messages ++ tail ∧
        tail.length ≤ 1) ∧
    (∀ loc glob, ∃ tail,
      addErrorContext (normMessages prompt messages) loc glob =
        normMessages prompt messages ++ tail ∧ tail.length ≤ 1) := by
  refine ⟨?_, fun loc glob => addErrorContext_concat _ loc glob⟩
  intro inv hinv
  obtain ⟨hlen, h0, hpos⟩ :=
    call_invs_spec p reg jit prompt model messages override inv hinv
  rcases Nat.eq_zero_or_pos inv.attempt with h | h
  · exact ⟨[], by simp [h0 h], by simp⟩
  · rw [hpos h]
    exact addErrorContext_concat _ _ _

/-- Claim C10 witness: the attempt-0 invocation of the flaky fixture carries
the original list with an empty extension. -/
theorem claim_C10_witness :
    invC10 ∈ (call pFlaky regFlaky jConst none none (some msgs0) none).invs ∧
    (∃ tail, invC10.messages = normMessages none (some msgs0) ++ tail ∧
      tail.length ≤ 1) :=
  ⟨by decide, (claim_C10_no_mutation pFlaky regFlaky jConst none none
    (some msgs0) none).1 invC10 (by decide)⟩

/-- Claim C5: a backend whose adapter fails on attempt indices below `k` and
succeeds at index `k` (i.e. fails on attempts 1..k and succeeds on attempt
k+1), with `k < maxRetries`, yields a response with `success = true`,
`attempts = k+1`, a local error list of exactly `k` entries, and exactly `k`
backoff sleeps — in particular no sleep at all when it succeeds on the first
try. -/
theorem claim_C5_fail_then_succeed (mR : Nat) (iw mW : ℚ) (jit : Nat → ℚ)
    (reg : Registry) (name : String) (messages : List Message)
    (model : Option String) (globalErrors : List ErrorRecord) (clock jdx : Nat)
    (a : Adapter) (k : Nat)
    (ha : getAdapter reg name = .ok a)
    (hbelow : ∀ i m, i < k → (a i m).isSuccess = false)
    (hat : ∀ m, ∃ r, a k m = .ok r ∧ r.success = true)
    (hk : k < mR) :
    (tryProvider mR iw mW jit reg name messages model globalErrors
        clock jdx).resp.success = true ∧
    (tryProvider mR iw mW jit reg name messages model globalErrors
        clock jdx).resp.attempts = k + 1 ∧
    ((tryProvider mR iw mW jit reg name messages model globalErrors
        clock jdx).resp.errorHistory.getD []).length = k ∧
    (tryProvider mR iw mW jit reg name messages model globalErrors
        clock jdx).sleeps.length = k ∧
    (k = 0 → (tryProvider mR iw mW jit reg name messages model globalErrors
        clock jdx).sleeps = []) := by
  unfold tryProvider
  rw [ha]
  obtain ⟨h1, h2, h3, h4⟩ :=
    tryLoop_fail_then_succeed mR mW jit name a messages model globalErrors k
      hbelow hat hk mR 0 iw [] clock jdx (by omega) (by omega) rfl
  have h4l : (tryLoop mR mW jit name a messages model globalErrors
      mR 0 iw [] clock jdx).sleeps.length = k := by simpa using h4
  refine ⟨h1, h2, h3, h4l, ?_⟩
  intro h0
  apply List.length_eq_zero.mp
  rw [h4l, h0]

/-- Claim C5 witness: the flaky fixture (fails once, then succeeds) run with
two allowed attempts. -/
theorem claim_C5_witness :
    getAdapter regFlaky "q" = .ok (flakyA "q" 1) ∧
    (∀ i m, i < 1 → ((flakyA "q" 1) i m).isSuccess = false) ∧
    (∀ m, ∃ r, (flakyA "q" 1) 1 m = .ok r ∧ r.success = true) ∧
    1 < 2 ∧
    ((tryProvider 2 1 30 jConst regFlaky "q" msgs0 none [] 0 0).resp.success
        = true ∧
      (tryProvider 2 1 30 jConst regFlaky "q" msgs0 none [] 0 0).resp.attempts
        = 1 + 1 ∧
      ((tryProvider 2 1 30 jConst regFlaky "q" msgs0 none [] 0
          0).resp.errorHistory.getD []).length = 1 ∧
      (tryProvider 2 1 30 jConst regFlaky "q" msgs0 none [] 0 0).sleeps.length
        = 1 ∧
      (1 = 0 → (tryProvider 2 1 30 jConst regFlaky "q" msgs0 none [] 0
          0).sleeps = [])) :=
  ⟨rfl,
    fun i m hi => by
      have h0 : i = 0 := by omega
      subst h0
      rfl,
    fun m => ⟨{ content := "ok", success := true, provider := "q", model := "m" },
      rfl, rfl⟩,
    by decide,
    claim_C5_fail_then_succeed 2 1 30 jConst regFlaky "q" msgs0 none [] 0 0
      (flakyA "q" 1) 1 rfl
      (fun i m hi => by
        have h0 : i = 0 := by omega
        subst h0
        rfl)
      (fun m =>
        ⟨{ content := "ok", success := true, provider := "q", model := "m" },
          rfl, rfl⟩)
      (by decide)⟩

/-- Claim C6 (amended): during one backend's retry sequence each backoff
sleep equals `currentWait * (1 + jitter)` with the jitter draw taken from the
input stream, after which `currentWait` doubles capped at `maxWait`, and no
sleep follows the final attempt — the sleeps are exactly
`waitSeq 0, waitSeq 1, ..., waitSeq (maxRetries-2)` scaled by their jitter
factors, where `waitSeq 0 = initialWait` and
`waitSeq (n+1) = min (waitSeq n * 2) maxWait`.  The claim's closed form
`min(initialWait * 2^k, maxWait)` for the k-th wait holds **provided**
`0 ≤ initialWait ≤ maxWait`; the first wait is not capped by the code. -/
theorem claim_C6_backoff (mR : Nat) (iw mW : ℚ) (jit : Nat → ℚ)
    (reg : Registry) (name : String) (messages : List Message)
    (model : Option String) (globalErrors : List ErrorRecord) (clock jdx : Nat)
    (a : Adapter) (ha : getAdapter reg name = .ok a) (hf : AlwaysFails a) :
    (tryProvider mR iw mW jit reg name messages model globalErrors
        clock jdx).sleeps =
      (List.range (mR - 1)).map
        (fun i => waitSeq mW iw i * (1 + jit (jdx + i))) ∧
    (0 ≤ iw → iw ≤ mW → ∀ n, waitSeq mW iw n = min (iw * 2 ^ n) mW) := by
  constructor
  · unfold tryProvider
    rw [ha]
    rw [tryLoop_sleeps_of_alwaysFails mR mW jit name a messages model
      globalErrors hf mR 0 iw [] clock jdx (by omega)]
    refine List.map_congr_left ?_
    intro i _
    ring
  · intro h0 hw n
    exact waitSeq_closed mW iw h0 hw n

/-- Claim C6 counterexample: with `initialWait = 4` above `maxWait = 3`, the
first (and only) sleep is the uncapped `4 * (1 + 0.1) = 22/5`, while the
claimed closed form `min(initialWait * 2^0, maxWait)` scaled by the same
factor gives `33/10`: the code caps the wait only when doubling, never the
initial wait, so the claimed formula is wrong for the first sleep when
`initialWait > maxWait`. -/
theorem claim_C6_counterexample :
    (tryProvider 2 4 3 jConst regQfail "q" msgs0 none [] 0 0).sleeps
      = [22 / 5] ∧
    ¬ ((22 : ℚ) / 5 = min ((4 : ℚ) * 2 ^ (0 : Nat)) 3 * (1 + jConst 0)) := by
  constructor
  · have hp : tryProvider 2 4 3 jConst regQfail "q" msgs0 none [] 0 0 =
        tryLoop 2 3 jConst "q" failA msgs0 none [] 2 0 4 [] 0 0 := rfl
    have h := tryLoop_sleeps_of_alwaysFails 2 3 jConst "q" failA msgs0 none []
      (fun _ _ => rfl) 2 0 4 [] 0 0 rfl
    rw [hp, h]
    show [waitSeq 3 4 0 + jConst (0 + 0) * waitSeq 3 4 0] = [22 / 5]
    norm_num [waitSeq, jConst]
  · norm_num [jConst]

/-- Claim C6 witness: the amended backoff description evaluated on the
always-failing fixture with three attempts. -/
theorem claim_C6_witness :
    getAdapter regQfail "q" = .ok failA ∧ AlwaysFails failA ∧
    ((tryProvider 3 1 30 jConst regQfail "q" msgs0 none [] 0 0).sleeps =
      (List.range (3 - 1)).map
        (fun i => waitSeq 30 1 i * (1 + jConst (0 + i))) ∧
      ((0 : ℚ) ≤ 1 → (1 : ℚ) ≤ 30 →
        ∀ n, waitSeq 30 1 n = min (1 * 2 ^ n) 30)) :=
  ⟨rfl, fun _ _ => rfl,
    claim_C6_backoff 3 1 30 jConst regQfail "q" msgs0 none [] 0 0 failA rfl
      (fun _ _ => rfl)⟩


/-- Claim C4: when every resolvable backend always fails, the call returns a
Response with `success = false`, backend name the sentinel `"all_failed"`,
`attempts` equal to the total number of ErrorRecords accumulated across all
backends, and that full accumulated history; in particular a single
always-failing backend configured alone with `maxRetries = N` yields exactly
N records. -/
theorem claim_C4_all_failed (p : Provider) (reg : Registry) (jit : Nat → ℚ)
    (model : Option String) (ms : List Message) (override : Option String)
    (hfail : ∀ n (a : Adapter), lookupCtor reg n = some (.ok a) →
      AlwaysFails a) :
    ∃ r hist, (call p reg jit none model (some ms) override).result = .ok r ∧
      r.success = false ∧ r.provider = "all_failed" ∧
      r.errorHistory = some hist ∧ r.attempts = hist.length ∧
      (∀ a : Adapter, override = none → p.fallbackProviders = [] →
        lookupCtor reg p.primaryProvider = some (.ok a) →
        hist.length = p.maxRetries) := by
  obtain ⟨h1, h2, h3, h4⟩ :=
    callLoop_resp_of_alwaysFails p reg jit ms model hfail
      (providersToTry p override)
      { errorHistory := [], stats := p.providerStats, clock := 0, jdx := 0,
        invs := [], sleeps := [], tried := [] }
  refine ⟨(callLoop p reg jit ms model (providersToTry p override)
      { errorHistory := [], stats := p.providerStats, clock := 0, jdx := 0,
        invs := [], sleeps := [], tried := [] }).1,
    (callLoop p reg jit ms model (providersToTry p override)
      { errorHistory := [], stats := p.providerStats, clock := 0, jdx := 0,
        invs := [], sleeps := [], tried := [] }).2.errorHistory,
    rfl, h1, h2, h3, h4, ?_⟩
  intro a hov hfb hlk
  subst hov
  have hga : getAdapter reg p.primaryProvider = .ok a := by
    unfold getAdapter
    rw [hlk]
  have hreg : p.primaryProvider ∈ listAdapters reg :=
    mem_listAdapters_of_getAdapter_ok reg _ a hga
  have hcands : providersToTry p none = [p.primaryProvider] := by
    simp [providersToTry, hfb]
  have hsucc : (tryProvider p.maxRetries p.initialWait p.maxWait jit reg
      p.primaryProvider ms model [] 0 0).resp.success = false :=
    tryProvider_success_false_of_alwaysFails _ _ _ _ _ _ _ _ _ _ _
      (fun a2 h2 => hfail _ a2 h2)
  obtain ⟨fresh, hresp, hlenf, _⟩ :=
    tryProvider_resp_of_alwaysFails p.maxRetries p.initialWait p.maxWait jit
      reg p.primaryProvider ms model [] 0 0 a hga (hfail _ a hlk)
  have hloop : (callLoop p reg jit ms model (providersToTry p none)
      { errorHistory := [], stats := p.providerStats, clock := 0, jdx := 0,
        invs := [], sleeps := [], tried := [] }).2.errorHistory =
      [] ++ ((tryProvider p.maxRetries p.initialWait p.maxWait jit reg
        p.primaryProvider ms model [] 0 0).resp.errorHistory.getD []) := by
    rw [hcands]
    simp only [callLoop]
    rw [if_pos hreg, if_neg (by simp [hsucc])]
    simp [callLoop, failStep, tryStep]
  rw [hloop, hresp]
  simpa using hlenf

/-- Claim C4 witness: the single always-failing backend "q" alone with
`maxRetries = 2` yields the all-failed response with exactly 2 records. -/
theorem claim_C4_witness :
    (∀ n (a : Adapter), lookupCtor regQfail n = some (.ok a) →
      AlwaysFails a) ∧
    (∃ r hist,
      (call pQfail regQfail jConst none none (some msgs0) none).result
          = .ok r ∧
      r.success = false ∧ r.provider = "all_failed" ∧
      r.errorHistory = some hist ∧ r.attempts = hist.length ∧
      (∀ a : Adapter, (none : Option String) = none →
        pQfail.fallbackProviders = [] →
        lookupCtor regQfail pQfail.primaryProvider = some (.ok a) →
        hist.length = pQfail.maxRetries)) := by
  have hf : ∀ n (a : Adapter), lookupCtor regQfail n = some (.ok a) →
      AlwaysFails a := by
    intro n a h
    have ha : failA = a := by
      rcases hq : (("q" : String) == n) with _ | _
      · simp [lookupCtor, regQfail, List.find?, hq] at h
      · simp [lookupCtor, regQfail, List.find?, hq] at h
        exact h
    exact ha ▸ (fun _ _ => rfl)
  exact ⟨hf, claim_C4_all_failed pQfail regQfail jConst none msgs0 none hf⟩

/-- Claim C7: the candidate order is the effective primary (per-call override
if supplied, else the configured primary) followed by the fallbacks with the
effective primary removed, in order; names absent from the registry are
silently skipped — the call still returns normally (no raise), the backends
actually handed to `_try_provider` are exactly (on total failure) or a prefix
of (on early success) the registered candidates in order, every recorded
error belongs to a tried backend, and the statistics of unregistered names
are untouched. -/
theorem claim_C7_candidate_order (p : Provider) (reg : Registry)
    (jit : Nat → ℚ) (model : Option String) (ms : List Message)
    (override : Option String) :
    providersToTry p override =
      (override.getD p.primaryProvider) ::
        p.fallbackProviders.filter
          (fun q => q ≠ override.getD p.primaryProvider) ∧
    (call p reg jit none model (some ms) override).result.isOk = true ∧
    ((call p reg jit none model (some ms) override).tried).IsPrefix
      ((providersToTry p override).filter
        (fun n => decide (n ∈ listAdapters reg))) ∧
    (∀ r, (call p reg jit none model (some ms) override).result = .ok r →
      r.success = false →
      (call p reg jit none model (some ms) override).tried =
        (providersToTry p override).filter
          (fun n => decide (n ∈ listAdapters reg))) ∧
    (∀ r, (call p reg jit none model (some ms) override).result = .ok r →
      ∀ e ∈ r.errorHistory.getD [],
        e.provider ∈ (call p reg jit none model (some ms) override).tried) ∧
    (∀ n, n ∉ listAdapters reg →
      lookupStats
          (call p reg jit none model (some ms) override).provider.providerStats
          n =
        lookupStats p.providerStats n) := by
  obtain ⟨hA, hB, hC, hD⟩ :=
    callLoop_tried_spec p reg jit ms model (providersToTry p override)
      { errorHistory := [], stats := p.providerStats, clock := 0, jdx := 0,
        invs := [], sleeps := [], tried := [] }
      (by simp)
  refine ⟨rfl, rfl, by simpa using hB, ?_, ?_, ?_⟩
  · intro r hr hfalse
    have hrx : (callLoop p reg jit ms model (providersToTry p override)
        { errorHistory := [], stats := p.providerStats, clock := 0, jdx := 0,
          invs := [], sleeps := [], tried := [] }).1 = r := Except.ok.inj hr
    have := hA (by rw [hrx, hfalse])
    simpa using this
  · intro r hr e he
    have hrx : (callLoop p reg jit ms model (providersToTry p override)
        { errorHistory := [], stats := p.providerStats, clock := 0, jdx := 0,
          invs := [], sleeps := [], tried := [] }).1 = r := Except.ok.inj hr
    exact hC e (by rw [hrx]; exact he)
  · intro n hn
    exact hD n hn

/-- Claim C7 witness: with only "q" registered, the candidate order is the
primary alone, and the stats entry of the unregistered name "z" is untouched
by a call. -/
theorem claim_C7_witness :
    ("z" ∉ listAdapters regQfail) ∧
    providersToTry pQfail none =
      (none.getD pQfail.primaryProvider) ::
        pQfail.fallbackProviders.filter
          (fun q => q ≠ none.getD pQfail.primaryProvider) ∧
    lookupStats
        (call pQfail regQfail jConst none none (some msgs0)
          none).provider.providerStats "z" =
      lookupStats pQfail.providerStats "z" :=
  ⟨by decide,
    (claim_C7_candidate_order pQfail regQfail jConst none msgs0 none).1,
    (claim_C7_candidate_order pQfail regQfail jConst none msgs0
      none).2.2.2.2.2 "z" (by decide)⟩

/-- Claim C1 counterexample: with the always-failing primary "p" and the
succeeding fallback "f", the primary is tried and fails (it appears in the
invocation trace before "f"), the returned Response reports "f" — but its
error history is `None`: the primary's failed-attempt records are **not**
prepended to (or present in) the returned history. -/
theorem claim_C1_counterexample :
    ((call pPF regPF jConst none none (some msgs0) none).invs.map
      Invocation.provider = ["p", "f"]) ∧
    ((call pPF regPF jConst none none (some msgs0) none).result.toOption.map
      LLMResponse.provider = some "f") ∧
    ((call pPF regPF jConst none none (some msgs0) none).result.toOption.map
      LLMResponse.errorHistory = some none) := by
  have hregP : "p" ∈ listAdapters regPF :=
    mem_listAdapters_of_getAdapter_ok regPF "p" failA rfl
  have hregF : "f" ∈ listAdapters regPF :=
    mem_listAdapters_of_getAdapter_ok regPF "f" (okA "f") rfl
  have h1 : ∀ g (c j : Nat), tryProvider 1 1 30 jConst regPF "p" msgs0 none
      g c j =
      { resp :=
          { content := ""
            success := false
            provider := "p"
            model := "unknown"
            attempts := 1
            totalTime := 0
            errorHistory := some [⟨"p", 1, "boom", "RuntimeError", c⟩] }
        invs := [⟨"p", 0, msgs0, [], g⟩]
        sleeps := []
        clock := c + 1
        jdx := j } := fun g c j => rfl
  have h2 : ∀ g (c j : Nat), tryProvider 1 1 30 jConst regPF "f" msgs0 none
      g c j =
      { resp :=
          { content := "ok"
            success := true
            provider := "f"
            model := "m"
            attempts := 1
            totalTime := 0
            errorHistory := none }
        invs := [⟨"f", 0, msgs0, [], g⟩]
        sleeps := []
        clock := c
        jdx := j } := fun g c j => rfl
  refine ⟨?_, ?_, ?_⟩ <;>
    simp [call, callRun, callLoop, providersToTry, pPF, hregP, hregF, h1, h2,
      failStep, tryStep]
  all_goals exact ⟨_, rfl, rfl⟩

/-- Claim C1 (amended): when every candidate before the fallback either is
skipped (unregistered), fails to resolve, or exhausts its retries with
failure — in particular a failing effective primary — and a later fallback
backend succeeds on attempt index `k` (failing its own first `k` attempts,
`k < maxRetries`, reporting its own name), the returned Response reports the
fallback's name with `success = true` and `attempts = k+1`, and carries
**only** the fallback backend's own locally accumulated errors: every record
in its history bears the fallback's name and there are exactly `k` of them
(`None` when the fallback succeeded on its first attempt).  The earlier
backends' failed-attempt records stay in the orchestrator's internal global
history — surfacing only in the `all_failed` response — and are never
prepended to a successful Response's history. -/
theorem claim_C1_fallback (p : Provider) (reg : Registry) (jit : Nat → ℚ)
    (model : Option String) (ms : List Message) (override : Option String)
    (pre post : List String) (fName : String) (fa : Adapter) (k : Nat)
    (hsplit : providersToTry p override = pre ++ fName :: post)
    (hpre : ∀ n ∈ pre, ∀ a : Adapter, lookupCtor reg n = some (.ok a) →
      AlwaysFails a)
    (hfa : getAdapter reg fName = .ok fa)
    (hbelow : ∀ i m, i < k → (fa i m).isSuccess = false)
    (hat : ∀ m, ∃ r, fa k m = .ok r ∧ r.success = true ∧ r.provider = fName)
    (hk : k < p.maxRetries) :
    ∃ r, (call p reg jit none model (some ms) override).result = .ok r ∧
      r.success = true ∧ r.provider = fName ∧ r.attempts = k + 1 ∧
      (∀ e ∈ r.errorHistory.getD [], e.provider = fName) ∧
      (r.errorHistory.getD []).length = k ∧
      (k = 0 → r.errorHistory = none) ∧
      (call p reg jit none model (some ms) override).tried =
        pre.filter (fun n => decide (n ∈ listAdapters reg)) ++ [fName] := by
  have hregF : fName ∈ listAdapters reg :=
    mem_listAdapters_of_getAdapter_ok reg fName fa hfa
  have hat2 : ∀ m, ∃ r, fa k m = .ok r ∧ r.success = true := by
    intro m
    obtain ⟨r, h1, h2, _⟩ := hat m
    exact ⟨r, h1, h2⟩
  have hred : ∀ (g : List ErrorRecord) (c j : Nat),
      tryProvider p.maxRetries p.initialWait p.maxWait jit reg fName ms model
        g c j =
      tryLoop p.maxRetries p.maxWait jit fName fa ms model g p.maxRetries 0
        p.initialWait [] c j := by
    intro g c j
    unfold tryProvider
    rw [hfa]
  obtain ⟨acc', hskip, htried⟩ :=
    callLoop_skip_failing_prefix p reg jit ms model pre (fName :: post)
      { errorHistory := [], stats := p.providerStats, clock := 0, jdx := 0,
        invs := [], sleeps := [], tried := [] } hpre
  have hmain := tryLoop_fail_then_succeed p.maxRetries p.maxWait jit fName fa
    ms model acc'.errorHistory k hbelow hat2 hk p.maxRetries 0 p.initialWait
    [] acc'.clock acc'.jdx (by omega) (by omega) rfl
  have hprov := tryLoop_fail_then_succeed_provider p.maxRetries p.maxWait jit
    fName fa ms model acc'.errorHistory k hbelow hat hk p.maxRetries 0
    p.initialWait [] acc'.clock acc'.jdx (by omega) (by omega) rfl
  have hsucc2 : (tryProvider p.maxRetries p.initialWait p.maxWait jit reg
      fName ms model acc'.errorHistory acc'.clock acc'.jdx).resp.success
        = true := by
    rw [hred]
    exact hmain.1
  have hstep : callLoop p reg jit ms model (fName :: post) acc' =
      ({ (tryProvider p.maxRetries p.initialWait p.maxWait jit reg fName ms
          model acc'.errorHistory acc'.clock acc'.jdx).resp with
         totalTime := (((tryStep acc' fName (tryProvider p.maxRetries
           p.initialWait p.maxWait jit reg fName ms model acc'.errorHistory
           acc'.clock acc'.jdx)).clock : Nat) : ℚ) },
       { tryStep acc' fName (tryProvider p.maxRetries p.initialWait p.maxWait
           jit reg fName ms model acc'.errorHistory acc'.clock acc'.jdx) with
         stats := updateStats acc'.stats fName true
           (((tryStep acc' fName (tryProvider p.maxRetries p.initialWait
             p.maxWait jit reg fName ms model acc'.errorHistory acc'.clock
             acc'.jdx)).clock : Nat) : ℚ) }) := by
    simp only [callLoop]
    rw [if_pos hregF, if_pos hsucc2]
  have hfst : (callLoop p reg jit ms model (providersToTry p override)
      { errorHistory := [], stats := p.providerStats, clock := 0, jdx := 0,
        invs := [], sleeps := [], tried := [] }).1 =
      { (tryProvider p.maxRetries p.initialWait p.maxWait jit reg fName ms
          model acc'.errorHistory acc'.clock acc'.jdx).resp with
        totalTime := (((tryStep acc' fName (tryProvider p.maxRetries
          p.initialWait p.maxWait jit reg fName ms model acc'.errorHistory
          acc'.clock acc'.jdx)).clock : Nat) : ℚ) } := by
    rw [hsplit, hskip, hstep]
  have hsnd : (callLoop p reg jit ms model (providersToTry p override)
      { errorHistory := [], stats := p.providerStats, clock := 0, jdx := 0,
        invs := [], sleeps := [], tried := [] }).2.tried =
      acc'.tried ++ [fName] := by
    rw [hsplit, hskip, hstep]
    simp [tryStep]
  refine ⟨_, rfl, ?_, ?_, ?_, ?_, ?_, ?_, ?_⟩
  · rw [hfst]
    simpa [hred] using hmain.1
  · rw [hfst]
    simpa [hred] using hprov.1
  · rw [hfst]
    simpa [hred] using hmain.2.1
  · intro e he
    rw [hfst] at he
    refine tryProvider_errors_mem p.maxRetries p.initialWait p.maxWait jit reg
      fName ms model acc'.errorHistory acc'.clock acc'.jdx e ?_
    simpa using he
  · rw [hfst]
    simpa [hred] using hmain.2.2.1
  · intro h0
    rw [hfst]
    have hnone := hprov.2 h0
    rw [hred] at *
    simpa using hnone
  · show (callLoop p reg jit ms model (providersToTry p override)
      { errorHistory := [], stats := p.providerStats, clock := 0, jdx := 0,
        invs := [], sleeps := [], tried := [] }).2.tried = _
    rw [hsnd, htried]
    simp

/-- Claim C1 witness: the failing primary "p" followed by the fallback "f"
that fails its first attempt and succeeds on its second: the returned
Response reports "f", `attempts = 2`, and its history holds exactly the one
error record of "f" itself — the primary's records are absent. -/
theorem claim_C1_witness :
    providersToTry pPF2 none = ["p"] ++ "f" :: [] ∧
    (∀ n ∈ ["p"], ∀ a : Adapter, lookupCtor regPFlaky n = some (.ok a) →
      AlwaysFails a) ∧
    getAdapter regPFlaky "f" = .ok (flakyA "f" 1) ∧
    (∀ i m, i < 1 → ((flakyA "f" 1) i m).isSuccess = false) ∧
    (∀ m, ∃ r, (flakyA "f" 1) 1 m = .ok r ∧ r.success = true ∧
      r.provider = "f") ∧
    1 < pPF2.maxRetries ∧
    (∃ r, (call pPF2 regPFlaky jConst none none (some msgs0) none).result
        = .ok r ∧
      r.success = true ∧ r.provider = "f" ∧ r.attempts = 1 + 1 ∧
      (∀ e ∈ r.errorHistory.getD [], e.provider = "f") ∧
      (r.errorHistory.getD []).length = 1 ∧
      (1 = 0 → r.errorHistory = none) ∧
      (call pPF2 regPFlaky jConst none none (some msgs0) none).tried =
        (["p"].filter (fun n => decide (n ∈ listAdapters regPFlaky)))
          ++ ["f"]) := by
  have hpre : ∀ n ∈ ["p"], ∀ a : Adapter,
      lookupCtor regPFlaky n = some (.ok a) → AlwaysFails a := by
    intro n hn a h
    have hn2 : n = "p" := by simpa using hn
    subst hn2
    have ha : failA = a := by
      simpa [lookupCtor, regPFlaky, List.find?] using h
    exact ha ▸ (fun _ _ => rfl)
  have hbelow : ∀ i m, i < 1 → ((flakyA "f" 1) i m).isSuccess = false := by
    intro i m hi
    have h0 : i = 0 := by omega
    subst h0
    rfl
  have hat : ∀ m, ∃ r, (flakyA "f" 1) 1 m = .ok r ∧ r.success = true ∧
      r.provider = "f" :=
    fun m =>
      ⟨{ content := "ok", success := true, provider := "f", model := "m" },
        rfl, rfl, rfl⟩
  exact ⟨rfl, hpre, rfl, hbelow, hat, by decide,
    claim_C1_fallback pPF2 regPFlaky jConst none msgs0 none ["p"] [] "f"
      (flakyA "f" 1) 1 rfl hpre rfl hbelow hat (by decide)⟩

end DdLlm
